import Mathlib

/-!
Verification development for the pandapages story ingestion and
content-addressed versioning subsystem.

The definitions below are a shallow embedding of the Go source:
  - `storyingest` (apps/api/internal/model/settings.go, package storyingest):
    frontmatter splitting, slug validation, content hashing, block
    segmentation, frontmatter merging.
  - the store operations `AdminPreview`, `AdminDraftUpsert`, `AdminPublish`
    (internal/db): story upsert, hash idempotency, version numbering,
    chapter inference, section and segment persistence, publish pointer.

External collaborators (the goldmark markdown renderer and block parser,
and the YAML parser) are parameters of the embedding, as the spec treats
them as black boxes; a small concrete model instance is provided for
evaluating the development on concrete inputs.  The SHA-256 digest
(Go crypto/sha256 plus hex encoding) is embedded in full.
-/

set_option maxRecDepth 100000

namespace Panda

/-! ## SHA-256 over byte lists (crypto/sha256), hex encoded -/

namespace SHA256

def M32 : Nat := 4294967296

def add32 (a b : Nat) : Nat := (a + b) % M32

def rotr (n x : Nat) : Nat := ((x >>> n) ||| (x <<< (32 - n))) % M32

def K : List Nat :=
  [1116352408, 1899447441, 3049323471, 3921009573, 961987163,
   1508970993, 2453635748, 2870763221, 3624381080, 310598401,
   607225278, 1426881987, 1925078388, 2162078206, 2614888103,
   3248222580, 3835390401, 4022224774, 264347078, 604807628,
   770255983, 1249150122, 1555081692, 1996064986, 2554220882,
   2821834349, 2952996808, 3210313671, 3336571891, 3584528711,
   113926993, 338241895, 666307205, 773529912, 1294757372,
   1396182291, 1695183700, 1986661051, 2177026350, 2456956037,
   2730485921, 2820302411, 3259730800, 3345764771, 3516065817,
   3600352804, 4094571909, 275423344, 430227734, 506948616,
   659060556, 883997877, 958139571, 1322822218, 1537002063,
   1747873779, 1955562222, 2024104815, 2227730452, 2361852424,
   2428436474, 2756734187, 3204031479, 3329325298]

def H0 : List Nat :=
  [1779033703, 3144134277, 1013904242, 2773480762,
   1359893119, 2600822924, 528734635, 1541459225]

/-- Pad a byte message per SHA-256: append 0x80, zeros, then the 64-bit
big-endian bit length, reaching a multiple of 64 bytes. -/
def pad (msg : List Nat) : List Nat :=
  let L := msg.length
  let zeros := (64 + 56 - (L + 1) % 64) % 64
  let lenBits := 8 * L
  msg ++ [128] ++ List.replicate zeros 0 ++
    ((List.range 8).map fun i => (lenBits >>> (56 - 8 * i)) % 256)

/-- Split a list into chunks of 64, recursing on an explicit fuel. -/
def chunksAux : Nat → List Nat → List (List Nat)
  | 0, _ => []
  | _, [] => []
  | Nat.succ fuel, l => l.take 64 :: chunksAux fuel (l.drop 64)

def chunks (l : List Nat) : List (List Nat) := chunksAux l.length l

/-- Combine 4 consecutive bytes into big-endian 32-bit words. -/
def toWords : List Nat → List Nat
  | b0 :: b1 :: b2 :: b3 :: rest =>
      (((b0 * 256 + b1) * 256 + b2) * 256 + b3) :: toWords rest
  | _ => []

def smallSigma0 (x : Nat) : Nat := (rotr 7 x) ^^^ (rotr 18 x) ^^^ (x >>> 3)

def smallSigma1 (x : Nat) : Nat := (rotr 17 x) ^^^ (rotr 19 x) ^^^ (x >>> 10)

def bigSigma0 (x : Nat) : Nat := (rotr 2 x) ^^^ (rotr 13 x) ^^^ (rotr 22 x)

def bigSigma1 (x : Nat) : Nat := (rotr 6 x) ^^^ (rotr 11 x) ^^^ (rotr 25 x)

/-- Extend 16 schedule words to 64. -/
def schedule (w : List Nat) : List Nat :=
  (List.range 48).foldl
    (fun w _ =>
      let n := w.length
      let t := (w.getD (n - 16) 0 + smallSigma0 (w.getD (n - 15) 0) +
                w.getD (n - 7) 0 + smallSigma1 (w.getD (n - 2) 0)) % M32
      w ++ [t]) w

def ch (e f g : Nat) : Nat := (e &&& f) ^^^ ((e ^^^ (M32 - 1)) &&& g)

def maj (a b c : Nat) : Nat := (a &&& b) ^^^ (a &&& c) ^^^ (b &&& c)

/-- One compression round. -/
def round (st : List Nat) (ki wi : Nat) : List Nat :=
  match st with
  | [a, b, c, d, e, f, g, h] =>
      let t1 := (h + bigSigma1 e + ch e f g + ki + wi) % M32
      let t2 := (bigSigma0 a + maj a b c) % M32
      [(t1 + t2) % M32, a, b, c, (d + t1) % M32, e, f, g]
  | st => st

/-- Compress one 64-byte chunk into the running hash state. -/
def compress (h : List Nat) (chunk : List Nat) : List Nat :=
  let w := schedule (toWords chunk)
  let fin := (List.range 64).foldl (fun st i => round st (K.getD i 0) (w.getD i 0)) h
  (h.zip fin).map fun p => add32 p.1 p.2

def hexDigit (n : Nat) : Char :=
  Char.ofNat (if n < 10 then 48 + n else 87 + n)

/-- Hex encoding of one 32-bit word as 8 lowercase hex characters. -/
def wordHex (x : Nat) : List Char :=
  (List.range 8).map fun i => hexDigit ((x >>> (28 - 4 * i)) % 16)

/-- SHA-256 digest of a byte list, as the usual lowercase hex string. -/
def sumHex (msg : List Nat) : String :=
  let final := (chunks (pad msg)).foldl compress H0
  ⟨(final.map wordHex).foldr (· ++ ·) []⟩

end SHA256

/-- UTF-8 encoding of one character as bytes, as Go converts string to []byte. -/
def utf8Char (c : Char) : List Nat :=
  let n := c.toNat
  if n < 0x80 then [n]
  else if n < 0x800 then [0xC0 ||| (n >>> 6), 0x80 ||| (n &&& 0x3F)]
  else if n < 0x10000 then
    [0xE0 ||| (n >>> 12), 0x80 ||| ((n >>> 6) &&& 0x3F), 0x80 ||| (n &&& 0x3F)]
  else
    [0xF0 ||| (n >>> 18), 0x80 ||| ((n >>> 12) &&& 0x3F),
     0x80 ||| ((n >>> 6) &&& 0x3F), 0x80 ||| (n &&& 0x3F)]

def utf8Bytes (s : String) : List Nat := (s.data.map utf8Char).foldr (· ++ ·) []

/-- `sha256.Sum256` of the UTF-8 bytes of a string, hex encoded
(settings.go lines 217 to 218). -/
def contentHashOf (s : String) : String := SHA256.sumHex (utf8Bytes s)

example : contentHashOf "abc" =
    "ba7816bf8f01cfea414140de5dae2223b00361a396177a9cb410ff61f20015ad" := by
  decide

/-! ## Go string primitives

The Go code manipulates strings through the strings package.  These are
embedded here over the character list of the string (Lean's own
positional String loops are avoided so every definition evaluates by
kernel reduction).  `goIsSpace` covers the Latin-1 part of Go
unicode.IsSpace, which is exact for every input considered here. -/

def goIsSpace (c : Char) : Bool :=
  c == ' ' || c == '\t' || c == '\n' || c == Char.ofNat 11 ||
  c == Char.ofNat 12 || c == '\r' || c == Char.ofNat 0x85 ||
  c == Char.ofNat 0xA0

/-- Go `strings.TrimSpace`. -/
def goTrim (s : String) : String :=
  ⟨((s.data.dropWhile goIsSpace).reverse.dropWhile goIsSpace).reverse⟩

/-- Go `strings.HasPrefix s pre`. -/
def goStartsWith (s pre : String) : Bool :=
  pre.data.isPrefixOf s.data

def splitCharList (c : Char) : List Char → List (List Char)
  | [] => [[]]
  | x :: xs =>
    match splitCharList c xs with
    | [] => if x == c then [[], [x]] else [[x]]
    | h :: t => if x == c then [] :: h :: t else (x :: h) :: t

/-- Go `strings.Split s sep` for a one-character separator (the only
shape the code uses). -/
def goSplitChar (c : Char) (s : String) : List String :=
  (splitCharList c s.data).map String.mk

/-- Go `strings.Join xs sep`. -/
def goJoin (sep : String) : List String → String
  | [] => ""
  | x :: rest => rest.foldl (fun acc y => acc ++ sep ++ y) x

def splitPredList (p : Char → Bool) : List Char → List (List Char)
  | [] => [[]]
  | x :: xs =>
    match splitPredList p xs with
    | [] => if p x then [[], [x]] else [[x]]
    | h :: t => if p x then [] :: h :: t else (x :: h) :: t

/-- Go `strings.Fields`: the maximal nonempty runs between whitespace. -/
def goFields (s : String) : List String :=
  ((splitPredList goIsSpace s.data).map String.mk).filter (· != "")

/-! ## storyingest data model (settings.go, package storyingest) -/

/-- A YAML frontmatter value as seen through the Go `map[string]any`:
either a string (the only shape the code inspects, via `.(string)`
assertions) or an opaque non-string value carrying a tag so that
preservation of unknown values is meaningful. -/
inductive FmVal
  | str (s : String)
  | nonString (tag : String)
deriving DecidableEq, Repr

abbrev FmMap := List (String × FmVal)

/-- Go `fm[k]` lookup (first binding wins; Go maps have unique keys). -/
def fmGet (m : FmMap) (k : String) : Option FmVal :=
  (m.find? (fun kv => kv.1 == k)).map (·.2)

/-- Go `v, ok := fm[k].(string)` : the value, when present and a string. -/
def fmGetStr (m : FmMap) (k : String) : Option String :=
  match fmGet m k with
  | some (.str s) => some s
  | _ => none

/-- Kind of a top-level goldmark block node. -/
inductive BlockKind
  | heading (level : Nat)
  | paragraph
  | otherBlock (typeName : String)
deriving DecidableEq, Repr

/-- A top-level block exposed by the external block parser (spec section 6):
its kind, the joined source lines of the node (`src`, empty when the node
exposes no lines, e.g. thematic breaks), and its flattened inline text
content (`txt`). -/
structure Block where
  kind : BlockKind
  src : String
  txt : String
deriving DecidableEq, Repr

/-- `extractBlockSource` (settings.go lines 137 to 152): join the source
line slices of the node and trim surrounding whitespace. -/
def extractBlockSource (b : Block) : String := goTrim b.src

/-- `textContent` (settings.go lines 154 to 168): flattened text of the
node, trimmed. -/
def textContent (b : Block) : String := goTrim b.txt

/-- The locator JSON attached to each segment, as a tagged variant: type
heading with the heading level and the 0-based running heading index,
type para with the 1-based running paragraph number, or type block with
the Go type name of the node. -/
inductive Locator
  | heading (h : Nat) (index : Nat)
  | para (n : Nat)
  | block (kind : String)
deriving DecidableEq, Repr

structure Segment where
  Ordinal : Nat
  Locator : Locator
  Markdown : String
  RenderedHTML : String
  WordCount : Nat
deriving DecidableEq, Repr

structure Input where
  Slug : String := ""
  Title : String := ""
  Author : String := ""
  Markdown : String := ""
  Language : String := ""
  SourceURL : String := ""
  Rights : Option FmMap := none
deriving DecidableEq, Repr

structure Output where
  Slug : String
  Title : String
  Author : String
  Language : String
  Source : FmMap
  Rights : FmMap
  Frontmatter : FmMap
  Markdown : String
  RenderedHTML : String
  ContentHash : String
  Segments : List Segment
deriving DecidableEq, Repr

/-- The external collaborators of the normalizer (spec section 6): the
markdown renderer (goldmark Convert), the block-structure parser
(goldmark Parser over top-level nodes), and the permissive YAML parser
(yaml.Unmarshal, returning an empty map on failure). -/
structure MarkdownLib where
  render : String → Except String String
  parseBlocks : String → List Block
  parseYaml : String → FmMap

/-- Go `h, _ := render(md)`: a failed render leaves the empty string. -/
def renderOr (lib : MarkdownLib) (md : String) : String :=
  ((lib.render md).toOption).getD ""

/-! ## storyingest pure functions -/

/-- The slug pattern of `slugRe`, the regular expression
`[a-z0-9]+(-[a-z0-9]+)*` anchored at both ends: nonempty hyphen-separated
groups of lowercase letters and digits, no leading, trailing or doubled
hyphen.  Embedded by splitting at hyphens. -/
def isSlugChar (c : Char) : Bool :=
  (('a' ≤ c) && (c ≤ 'z')) || (('0' ≤ c) && (c ≤ '9'))

def slugMatches (s : String) : Bool :=
  (goSplitChar '-' s).all (fun p => p != "" && p.data.all isSlugChar)

/-- Go `strings.TrimLeft(md, "﻿ \t\r\n")`. -/
def trimLeftCutset (cut : List Char) (s : String) : String :=
  ⟨s.data.dropWhile (cut.contains ·)⟩

def fmCutset : List Char := ['﻿', ' ', '\t', '\r', '\n']

/-- `splitFrontmatter` (settings.go lines 93 to 120): split an optional
leading YAML frontmatter block delimited by `---` lines; on any failure
to find the block, return an empty map and the whole original text. -/
def splitFrontmatter (lib : MarkdownLib) (md : String) : FmMap × String :=
  let s := trimLeftCutset fmCutset md
  if !(goStartsWith s "---\n" || goStartsWith s "---\r\n") then ([], md)
  else
    let lines := goSplitChar '\n' s
    if lines.length < 3 then ([], md)
    else
      match (lines.drop 1).findIdx? (fun l => goTrim l == "---") with
      | none => ([], md)
      | some j =>
          let fmText := goJoin "\n" ((lines.drop 1).take j)
          let body := goJoin "\n" (lines.drop (j + 2))
          (lib.parseYaml fmText, body)

/-- `wordCount` (settings.go lines 133 to 135). -/
def wordCount (s : String) : Nat :=
  (goFields ⟨s.data.map (fun c => if c == '\n' then ' ' else c)⟩).length

/-- The segmentation loop of `Ingest` (settings.go lines 231 to 277):
walk the top-level blocks in order carrying the running ordinal, the
1-based paragraph counter and the 0-based heading counter. -/
def segmentsOf (lib : MarkdownLib) :
    Nat → Nat → Nat → List Block → List Segment
  | _, _, _, [] => []
  | ordinal, paraN, headIdx, b :: rest =>
    match b.kind with
    | .heading level =>
        let txt0 := textContent b
        let txt := if txt0 == "" then extractBlockSource b else txt0
        let md := String.mk (List.replicate level '#') ++ " " ++ txt
        { Ordinal := ordinal, Locator := .heading level headIdx, Markdown := md,
          RenderedHTML := renderOr lib md, WordCount := wordCount txt } ::
          segmentsOf lib (ordinal + 1) paraN (headIdx + 1) rest
    | .paragraph =>
        let md0 := extractBlockSource b
        let md := if md0 == "" then textContent b else md0
        { Ordinal := ordinal, Locator := .para (paraN + 1), Markdown := md,
          RenderedHTML := renderOr lib md, WordCount := wordCount md } ::
          segmentsOf lib (ordinal + 1) (paraN + 1) headIdx rest
    | .otherBlock typeName =>
        let md := extractBlockSource b
        if goTrim md == "" then segmentsOf lib ordinal paraN headIdx rest
        else
          { Ordinal := ordinal, Locator := .block typeName, Markdown := md,
            RenderedHTML := renderOr lib md, WordCount := wordCount md } ::
            segmentsOf lib (ordinal + 1) paraN headIdx rest

/-- `Ingest` (settings.go lines 170 to 314): validate, split frontmatter,
resolve fields with frontmatter fallback, render, hash, segment, and
merge the returned frontmatter map. -/
def Ingest (lib : MarkdownLib) (inp : Input) : Except String Output :=
  let slug := goTrim inp.Slug
  let title0 := goTrim inp.Title
  let author0 := goTrim inp.Author
  if title0 == "" then .error "title is required"
  else if slug == "" then .error "slug is required"
  else if !slugMatches slug then
    .error "invalid slug: use lowercase letters/numbers/hyphens (e.g. the-gruffalo)"
  else if goTrim inp.Markdown == "" then .error "markdown is required"
  else
    let (fm, body) := splitFrontmatter lib inp.Markdown
    let title := match fmGetStr fm "title" with
      | some v => if title0 == "" then goTrim v else title0
      | none => title0
    let author := match fmGetStr fm "author" with
      | some v => if author0 == "" then goTrim v else author0
      | none => author0
    let language1 := match fmGetStr fm "language" with
      | some v => if inp.Language == "" then goTrim v else inp.Language
      | none => inp.Language
    let sourceURL := match fmGetStr fm "sourceUrl" with
      | some v => if inp.SourceURL == "" then goTrim v else inp.SourceURL
      | none => inp.SourceURL
    let language := if language1 == "" then "en-GB" else language1
    let rights := inp.Rights.getD []
    match lib.render body with
    | .error e => .error e
    | .ok fullHTML =>
        let hash := contentHashOf body
        let segs := segmentsOf lib 1 0 0 (lib.parseBlocks body)
        let source : FmMap :=
          if goTrim sourceURL != "" then [("url", .str (goTrim sourceURL))]
          else []
        let fm0 : FmMap :=
          [("title", .str title), ("author", .str author),
           ("language", .str language)] ++
          (if goTrim sourceURL != "" then
            [("sourceUrl", .str (goTrim sourceURL))]
           else [])
        let frontmatter := fm.foldl
          (fun acc kv => if (fmGet acc kv.1).isSome then acc else acc ++ [kv])
          fm0
        .ok { Slug := slug, Title := title, Author := author,
              Language := language, Source := source, Rights := rights,
              Frontmatter := frontmatter, Markdown := body,
              RenderedHTML := fullHTML, ContentHash := hash, Segments := segs }

/-! ## Store state model (internal/db)

Rows are keyed by UUIDs in Postgres; generated ids are modelled as
naturals drawn from a fresh counter `nextId`.  A SQL single-row SELECT is
modelled as `List.find?` over the table in row order (the queries carry
no ORDER BY and scan at most one row).  The belt-and-braces Go checks
that a scanned id is nonblank are subsumed by `Option` success, since a
scanned UUID primary key is never the empty string. -/

structure StoryRow where
  id : Nat
  accountId : String
  slug : String
  title : String
  author : Option String
  language : String
  source : FmMap
  rights : FmMap
  draftVersionId : Option Nat
  publishedVersionId : Option Nat
  isPublished : Bool
deriving DecidableEq, Repr

structure VersionRow where
  id : Nat
  storyId : Nat
  version : Nat
  frontmatter : FmMap
  markdown : String
  renderedHtml : String
  contentHash : String
deriving DecidableEq, Repr

structure SectionRow where
  id : Nat
  versionId : Nat
  kind : String
  title : Option String
  ordinal : Nat
deriving DecidableEq, Repr

structure SegmentRow where
  id : Nat
  versionId : Nat
  sectionId : Option Nat
  ordinal : Nat
  locator : Locator
  markdown : String
  renderedHtml : String
  wordCount : Nat
deriving DecidableEq, Repr

structure ContributorRow where
  id : Nat
  name : String
deriving DecidableEq, Repr

structure StoryContributorRow where
  storyId : Nat
  contributorId : Nat
  role : String
deriving DecidableEq, Repr

structure DBState where
  stories : List StoryRow
  versions : List VersionRow
  sections : List SectionRow
  segments : List SegmentRow
  contributors : List ContributorRow
  storyContributors : List StoryContributorRow
  nextId : Nat
deriving DecidableEq, Repr

/-- `SELECT id FROM stories WHERE account_id=$1 AND slug=$2`. -/
def findStory (st : DBState) (accountId slug : String) : Option StoryRow :=
  st.stories.find? (fun s => s.accountId == accountId && s.slug == slug)

/-- The idempotency lookup (part_000 lines 114 to 119):
`SELECT ... FROM story_versions WHERE story_id=$1 AND content_hash=$2 LIMIT 1`. -/
def findVersionByHash (st : DBState) (storyId : Nat) (hash : String) :
    Option VersionRow :=
  st.versions.find? (fun v => v.storyId == storyId && v.contentHash == hash)

/-- SQL `NULLIF(BTRIM(x), '')`. -/
def nullifBtrim (s : String) : Option String :=
  if goTrim s == "" then none else some (goTrim s)

/-- The story upsert (part_000 lines 93 to 104): insert on a fresh
`(account_id, slug)` key, otherwise update the cached metadata of the
conflicting row in place, returning the row id either way. -/
def upsertStory (st : DBState) (accountId : String) (ing : Output) :
    DBState × Nat :=
  match findStory st accountId ing.Slug with
  | some s =>
      let upd := fun (t : StoryRow) =>
        if t.id == s.id then
          { t with title := ing.Title, author := nullifBtrim ing.Author,
                   language := ing.Language, source := ing.Source,
                   rights := ing.Rights }
        else t
      ({ st with stories := st.stories.map upd }, s.id)
  | none =>
      let sid := st.nextId
      ({ st with
          stories := st.stories ++
            [{ id := sid, accountId := accountId, slug := ing.Slug,
               title := ing.Title, author := nullifBtrim ing.Author,
               language := ing.Language, source := ing.Source,
               rights := ing.Rights, draftVersionId := none,
               publishedVersionId := none, isPublished := false }],
          nextId := st.nextId + 1 }, sid)

/-- `UPDATE stories SET draft_version_id=$2 ... WHERE id=$1`. -/
def setDraftPointer (st : DBState) (storyId vid : Nat) : DBState :=
  { st with stories := st.stories.map fun s =>
      if s.id == storyId then { s with draftVersionId := some vid } else s }

/-- `INSERT INTO contributors (name) ... ON CONFLICT (name) DO UPDATE SET
name = EXCLUDED.name RETURNING id`. -/
def upsertContributor (st : DBState) (name : String) : DBState × Nat :=
  match st.contributors.find? (fun c => c.name == name) with
  | some c => (st, c.id)
  | none =>
      let row : ContributorRow := { id := st.nextId, name := name }
      ({ st with
          contributors := st.contributors ++ [row],
          nextId := st.nextId + 1 }, st.nextId)

/-- The best-effort contributor linking (part_000 lines 133 to 151 and
308 to 326): when the resolved author is nonblank, ensure a contributor
row and an author role link exist. -/
def linkAuthor (st : DBState) (storyId : Nat) (ing : Output) : DBState :=
  if goTrim ing.Author != "" then
    let p := upsertContributor st ing.Author
    let st1 := p.1
    let cid := p.2
    if (st1.storyContributors.find? (fun l =>
        l.storyId == storyId && l.contributorId == cid &&
        l.role == "author")).isSome then st1
    else
      { st1 with storyContributors := st1.storyContributors ++
          [{ storyId := storyId, contributorId := cid, role := "author" }] }
  else st

/-- `SELECT COALESCE(MAX(version), 0) FROM story_versions WHERE
story_id = $1` (part_000 lines 173 to 177, before the `+ 1`). -/
def maxVersion (st : DBState) (storyId : Nat) : Nat :=
  (st.versions.filter (fun v => v.storyId == storyId)).foldl
    (fun m v => max m v.version) 0

/-- `headingText` (part_000 lines 200 to 204): trim, strip the leading
run of hash marks, trim again. -/
def headingTextOf (md : String) : String :=
  goTrim (trimLeftCutset ['#'] (goTrim md))

structure Chapter where
  startSegOrdinal : Nat
  title : String
  sectionOrdinal : Nat
deriving DecidableEq, Repr

/-- The chapter-collection pass (part_000 lines 212 to 230): every
segment whose locator is a level-2 heading starts a chapter, titled from
its heading text, or Chapter N when that text is blank.  The Go loop
appends to a growing slice; the recursion carries the running length. -/
def chaptersGo (count : Nat) : List Segment → List Chapter
  | [] => []
  | seg :: rest =>
    match seg.Locator with
    | .heading 2 _ =>
        let t0 := headingTextOf seg.Markdown
        let t := if goTrim t0 == "" then "Chapter " ++ toString (count + 1)
          else t0
        { startSegOrdinal := seg.Ordinal, title := t,
          sectionOrdinal := count + 1 } :: chaptersGo (count + 1) rest
    | _ => chaptersGo count rest

def chaptersOf (segs : List Segment) : List Chapter := chaptersGo 0 segs

def lookupStart (m : List (Nat × Nat)) (o : Nat) : Option Nat :=
  (m.find? (fun p => p.1 == o)).map (·.2)

/-- The section inserts (part_000 lines 232 to 260): with no chapters,
one implicit row of kind section with ordinal 1 keyed by start ordinal 1;
otherwise one chapter row per collected chapter, building the map from
chapter start ordinal to section id. -/
def insertChapterRows (vid : Nat) :
    DBState → List Chapter → DBState × List (Nat × Nat)
  | st, [] => (st, [])
  | st, c :: cs =>
      let secId := st.nextId
      let row : SectionRow :=
        { id := secId, versionId := vid, kind := "chapter",
          title := some c.title, ordinal := c.sectionOrdinal }
      let r := insertChapterRows vid
        { st with sections := st.sections ++ [row], nextId := st.nextId + 1 }
        cs
      (r.1, (c.startSegOrdinal, secId) :: r.2)

def insertSections (st : DBState) (vid : Nat) (chapters : List Chapter) :
    DBState × List (Nat × Nat) :=
  if chapters.isEmpty then
    let secId := st.nextId
    let row : SectionRow :=
      { id := secId, versionId := vid, kind := "section", title := none,
        ordinal := 1 }
    ({ st with
        sections := st.sections ++ [row],
        nextId := st.nextId + 1 }, [(1, secId)])
  else insertChapterRows vid st chapters

/-- One step of the section assignment of the segment-insert loop
(part_000 lines 262 to 295): with no chapters every segment joins the
single implicit section; otherwise a level-1 heading stays unsectioned,
a level-2 heading starts its own chapter, and every other segment joins
the chapter current at that point, if any.  Returns the section id
written for this segment and the updated current chapter id. -/
def assignStep (noChapters : Bool) (secByStart : List (Nat × Nat))
    (cur : Option Nat) (seg : Segment) : Option Nat × Option Nat :=
  if noChapters then (lookupStart secByStart 1, cur)
  else match seg.Locator with
    | .heading 1 _ => (none, cur)
    | .heading 2 _ =>
        (match lookupStart secByStart seg.Ordinal with
         | some id => (some id, some id)
         | none => (none, cur))
    | _ => (cur, cur)

def insertSegmentRows (vid : Nat) (noChapters : Bool)
    (secByStart : List (Nat × Nat)) :
    DBState → Option Nat → List Segment → DBState
  | st, _, [] => st
  | st, cur, seg :: rest =>
      let pair := assignStep noChapters secByStart cur seg
      let row : SegmentRow :=
        { id := st.nextId, versionId := vid, sectionId := pair.1,
          ordinal := seg.Ordinal, locator := seg.Locator,
          markdown := seg.Markdown, renderedHtml := seg.RenderedHTML,
          wordCount := seg.WordCount }
      insertSegmentRows vid noChapters secByStart
        { st with segments := st.segments ++ [row], nextId := st.nextId + 1 }
        pair.2 rest

def insertSegments (st : DBState) (vid : Nat) (chapters : List Chapter)
    (secByStart : List (Nat × Nat)) (segs : List Segment) : DBState :=
  insertSegmentRows vid chapters.isEmpty secByStart st none segs

structure AdminDraftUpsertRequest where
  Slug : String := ""
  Title : String := ""
  Markdown : String := ""
  Author : Option String := none
  Language : Option String := none
  SourceURL : Option String := none
  Rights : Option FmMap := none
deriving DecidableEq, Repr

structure AdminDraftUpsertResponse where
  StoryID : Nat
  StoryVersionID : Nat
  Slug : String
  Version : Nat
  SegmentsCount : Nat
  RenderedHTML : String
deriving DecidableEq, Repr

/-- The request normalization of `AdminDraftUpsert` (part_000 lines 47
to 74) building the `storyingest.Input`. -/
def mkUpsertInput (req : AdminDraftUpsertRequest) : Input :=
  { Slug := goTrim req.Slug, Title := goTrim req.Title,
    Author := (req.Author.map goTrim).getD "",
    Markdown := req.Markdown,
    Language := match req.Language with
      | some l => if goTrim l != "" then goTrim l else "en-GB"
      | none => "en-GB",
    SourceURL := (req.SourceURL.map goTrim).getD "",
    Rights := req.Rights }

/-- The idempotent hash-hit path of `AdminDraftUpsert` (part_000 lines
121 to 165): repoint the draft at the existing version, link the author,
and return the existing version's number and rendered HTML, with the
segment count of the fresh normalization. -/
def draftHit (st1 : DBState) (storyID : Nat) (ing : Output)
    (v : VersionRow) : DBState × AdminDraftUpsertResponse :=
  (linkAuthor (setDraftPointer st1 storyID v.id) storyID ing,
   { StoryID := storyID, StoryVersionID := v.id, Slug := ing.Slug,
     Version := v.version, SegmentsCount := ing.Segments.length,
     RenderedHTML := v.renderedHtml })

/-- The new-content path of `AdminDraftUpsert` (part_000 lines 171 to
339): insert a version numbered max plus one, its sections and segments,
repoint the draft at it, link the author. -/
def draftMiss (st1 : DBState) (storyID : Nat) (ing : Output) :
    DBState × AdminDraftUpsertResponse :=
  let nextVersion := maxVersion st1 storyID + 1
  let vid := st1.nextId
  let st2 := { st1 with
    versions := st1.versions ++
      [{ id := vid, storyId := storyID, version := nextVersion,
         frontmatter := ing.Frontmatter, markdown := ing.Markdown,
         renderedHtml := ing.RenderedHTML,
         contentHash := ing.ContentHash }],
    nextId := st1.nextId + 1 }
  let chapters := chaptersOf ing.Segments
  let q := insertSections st2 vid chapters
  let st4 := insertSegments q.1 vid chapters q.2 ing.Segments
  (linkAuthor (setDraftPointer st4 storyID vid) storyID ing,
   { StoryID := storyID, StoryVersionID := vid, Slug := ing.Slug,
     Version := nextVersion, SegmentsCount := ing.Segments.length,
     RenderedHTML := ing.RenderedHTML })

/-- `AdminDraftUpsert` (part_000 lines 41 to 340): validate the account,
run the normalizer, upsert the story, and either repoint the draft at an
existing version with the same content hash, or insert a new version
with number max plus one together with its sections and segments, then
point the draft at it.  All writes commit together. -/
def AdminDraftUpsert (lib : MarkdownLib) (st : DBState) (accountID : String)
    (req : AdminDraftUpsertRequest) :
    Except String (DBState × AdminDraftUpsertResponse) :=
  let accountID := goTrim accountID
  if accountID == "" then .error "account required"
  else
    match Ingest lib (mkUpsertInput req) with
    | .error e => .error e
    | .ok ing =>
        let p := upsertStory st accountID ing
        match findVersionByHash p.1 p.2 ing.ContentHash with
        | some v => .ok (draftHit p.1 p.2 ing v)
        | none => .ok (draftMiss p.1 p.2 ing)

/-- `AdminPublish` (part_000 lines 342 to 377): resolve the story by
account and slug, require the version to belong to it, then swap the
published pointer and mark the story published.  The version id is a
UUID string in Go, modelled numerically; the Go early blank-id check is
one more way to fail before any write and needs no separate case.  The
result carries the database state after the call next to the optional
error, so that the error paths, which run reads only, visibly leave the
state as it was. -/
def AdminPublish (st : DBState) (accountID slug : String) (versionID : Nat) :
    DBState × Option String :=
  let accountID := goTrim accountID
  let slug := goTrim slug
  if accountID == "" || slug == "" then
    (st, some "account, slug and versionId required")
  else
    match findStory st accountID slug with
    | none => (st, some "sql: no rows in result set")
    | some s =>
        match st.versions.find? (fun v =>
            v.id == versionID && v.storyId == s.id) with
        | none => (st, some "sql: no rows in result set")
        | some _ =>
            ({ st with stories := st.stories.map fun t =>
                if t.id == s.id then
                  { t with publishedVersionId := some versionID,
                           isPublished := true }
                else t }, none)

/-! ## A concrete model of the external collaborators

Modelled from the spec: the goldmark block parser, goldmark renderer and
YAML parser are external libraries, out of scope of the repository; the
spec (section 6) only fixes their interface.  The instance below covers
the CommonMark constructs the development evaluates on: ATX headings
(one to six hash marks then a space or end of line, possibly empty),
thematic breaks (lines of three or more hyphens, asterisks or
underscores, which expose no source lines), and paragraphs of
consecutive plain lines; the YAML model reads simple key colon value
lines.  General theorems quantify over every collaborator instance. -/

/-- An ATX heading line: its level and raw text after the hash marks. -/
def atxHeading (l : String) : Option (Nat × String) :=
  let n := (l.data.takeWhile (· == '#')).length
  if n == 0 || 6 < n then none
  else
    let rest : String := ⟨l.data.drop n⟩
    if rest == "" then some (n, "")
    else if goStartsWith rest " " || goStartsWith rest "\t" then
      some (n, goTrim rest)
    else none

def breakLine (l : String) : Bool :=
  let t := goTrim l
  3 ≤ t.length &&
    (t.data.all (· == '-') || t.data.all (· == '*') || t.data.all (· == '_'))

def plainLine (l : String) : Bool :=
  !(goTrim l == "") && (atxHeading l).isNone && !breakLine l

def parseLinesModel : Nat → List String → List Block
  | 0, _ => []
  | _, [] => []
  | Nat.succ fuel, l :: rest =>
    if goTrim l == "" then parseLinesModel fuel rest
    else
      match atxHeading l with
      | some p =>
          { kind := .heading p.1, src := p.2, txt := p.2 } ::
            parseLinesModel fuel rest
      | none =>
          if breakLine l then
            { kind := .otherBlock "*ast.ThematicBreak", src := "", txt := "" } ::
              parseLinesModel fuel rest
          else
            let body := (l :: rest).takeWhile plainLine
            let joined := goJoin "\n" body
            { kind := .paragraph, src := joined, txt := joined } ::
              parseLinesModel fuel ((l :: rest).drop body.length)

def parseBlocksModel (body : String) : List Block :=
  let lines := goSplitChar '\n' body
  parseLinesModel lines.length lines

def renderModel (md : String) : Except String String :=
  .ok (String.join ((parseBlocksModel md).map fun b =>
    match b.kind with
    | .heading n => "<h" ++ toString n ++ ">" ++ b.txt ++ "</h" ++
        toString n ++ ">\n"
    | .paragraph => "<p>" ++ b.txt ++ "</p>\n"
    | .otherBlock _ => "<hr>\n"))

def parseYamlModel (s : String) : FmMap :=
  (goSplitChar '\n' s).foldl
    (fun acc line =>
      match goSplitChar ':' line with
      | k :: v :: vs =>
          let key := goTrim k
          if key == "" then acc
          else if (fmGet acc key).isSome then acc
          else acc ++ [(key, .str (goTrim (goJoin ":" (v :: vs))))]
      | _ => acc) []

def modelLib : MarkdownLib :=
  { render := renderModel, parseBlocks := parseBlocksModel,
    parseYaml := parseYamlModel }

structure AdminSegment where
  Ordinal : Nat
  Locator : Locator
  RenderedHTML : String
deriving DecidableEq, Repr

structure AdminPreviewResponse where
  RenderedHTML : String
  Segments : List AdminSegment
deriving DecidableEq, Repr

/-- The throwaway input `AdminPreview` feeds to the normalizer
(part_000 lines 14 to 20). -/
def previewInput (markdown : String) : Input :=
  { Slug := "preview", Title := "Preview", Author := "",
    Markdown := markdown, Language := "en-GB" }

/-- `AdminPreview` (part_000 lines 13 to 38): run the normalizer with a
throwaway slug and title and project the segments; no persistence. -/
def AdminPreview (lib : MarkdownLib) (markdown : String) :
    Except String AdminPreviewResponse :=
  match Ingest lib (previewInput markdown) with
  | .error e => .error e
  | .ok out =>
      .ok { RenderedHTML := out.RenderedHTML,
            Segments := out.Segments.map fun seg =>
              { Ordinal := seg.Ordinal, Locator := seg.Locator,
                RenderedHTML := seg.RenderedHTML } }

/-- First-some of two optional frontmatter values, used to state lookup
lemmas about the merged frontmatter map. -/
def optOr (a b : Option FmVal) : Option FmVal :=
  match a with
  | some v => some v
  | none => b

/-! ## Concrete data for evaluating the development -/

def storyA : StoryRow :=
  { id := 1, accountId := "acc", slug := "a", title := "A", author := none,
    language := "en-GB", source := [], rights := [], draftVersionId := some 10,
    publishedVersionId := some 10, isPublished := true }

def storyB : StoryRow :=
  { id := 2, accountId := "acc", slug := "b", title := "B", author := none,
    language := "en-GB", source := [], rights := [], draftVersionId := none,
    publishedVersionId := none, isPublished := false }

def versionA : VersionRow :=
  { id := 10, storyId := 1, version := 1, frontmatter := [],
    markdown := "Once.", renderedHtml := "<p>Once.</p>\n",
    contentHash := contentHashOf "Once." }

def twoStoryState : DBState :=
  { stories := [storyA, storyB], versions := [versionA], sections := [],
    segments := [], contributors := [], storyContributors := [], nextId := 20 }

def exOutput : Output :=
  { Slug := "", Title := "", Author := "", Language := "", Source := [],
    Rights := [], Frontmatter := [], Markdown := "", RenderedHTML := "",
    ContentHash := "", Segments := [] }

/-- The payload of a successful `Ingest`, with a dummy default. -/
def ingOut (r : Except String Output) : Output := r.toOption.getD exOutput

def w10inp : Input :=
  { Slug := "fox", Title := "Fox",
    Markdown := "---\ntitle: Zed\nOnce upon a time." }

def w9inp : Input :=
  { Slug := "fox", Title := "Fox", SourceURL := "http://x",
    Markdown := "---\ntitle: Zed\nfoo: bar\n---\nOnce." }

def c9inp : Input :=
  { Slug := "fox", Title := "Fox", Markdown := "Once." }

def segOrdinals (segs : List Segment) : List Nat := segs.map (·.Ordinal)

def headingLocs (segs : List Segment) : List (Nat × Nat) :=
  segs.filterMap (fun s => match s.Locator with
    | .heading h i => some (h, i)
    | _ => none)

def paraLocs (segs : List Segment) : List Nat :=
  segs.filterMap (fun s => match s.Locator with
    | .para n => some n
    | _ => none)

def blockLocs (segs : List Segment) : List String :=
  segs.filterMap (fun s => match s.Locator with
    | .block k => some k
    | _ => none)

def headingLevels (blocks : List Block) : List Nat :=
  blocks.filterMap (fun b => match b.kind with
    | .heading l => some l
    | _ => none)

def paraCount (blocks : List Block) : Nat :=
  (blocks.filter (fun b => match b.kind with
    | .paragraph => true
    | _ => false)).length

def keptOtherKinds (blocks : List Block) : List String :=
  blocks.filterMap (fun b => match b.kind with
    | .otherBlock t =>
        if goTrim (extractBlockSource b) == "" then none else some t
    | _ => none)

def w6inp : Input :=
  { Slug := "fox", Title := "Fox",
    Markdown := "# T\n\nPara one.\n\n---\n\n##" }

def c6inp : Input := { Slug := "fox", Title := "Fox", Markdown := "##" }

def segRowKey (r : SegmentRow) : Nat × Nat × Locator × String :=
  (r.versionId, r.ordinal, r.locator, r.renderedHtml)

def exPreview : AdminPreviewResponse := { RenderedHTML := "", Segments := [] }

def exResp : AdminDraftUpsertResponse :=
  { StoryID := 0, StoryVersionID := 0, Slug := "", Version := 0,
    SegmentsCount := 0, RenderedHTML := "" }

def emptyState : DBState :=
  { stories := [], versions := [], sections := [], segments := [],
    contributors := [], storyContributors := [], nextId := 1 }

def prevOut (r : Except String AdminPreviewResponse) : AdminPreviewResponse :=
  r.toOption.getD exPreview

def updOut (r : Except String (DBState × AdminDraftUpsertResponse)) :
    DBState × AdminDraftUpsertResponse :=
  r.toOption.getD (emptyState, exResp)

def w5req : AdminDraftUpsertRequest :=
  { Slug := "fox", Title := "Fox", Markdown := "# T\n\nPara one." }

def w1req : AdminDraftUpsertRequest :=
  { Slug := "fox", Title := "Fox", Markdown := "Once upon a time." }

def w8req : AdminDraftUpsertRequest :=
  { Slug := "fox", Title := "Fox", Markdown := "A different body." }

def w1story : StoryRow :=
  { id := 5, accountId := "acc", slug := "fox", title := "Fox",
    author := none, language := "en-GB", source := [], rights := [],
    draftVersionId := none, publishedVersionId := some 7,
    isPublished := true }

def w1version : VersionRow :=
  { id := 7, storyId := 5, version := 3, frontmatter := [],
    markdown := "Once upon a time.",
    renderedHtml := "<p>Once upon a time.</p>\n",
    contentHash := contentHashOf "Once upon a time." }

def w1state : DBState :=
  { stories := [w1story], versions := [w1version], sections := [],
    segments := [], contributors := [], storyContributors := [],
    nextId := 8 }

def versionNumbers (st : DBState) (sid : Nat) : List Nat :=
  (st.versions.filter (fun v => v.storyId == sid)).map (·.version)

def upsertSeq (lib : MarkdownLib) (acc : String) :
    DBState → List AdminDraftUpsertRequest → Except String DBState
  | st, [] => .ok st
  | st, r :: rs =>
    match AdminDraftUpsert lib st acc r with
    | .error e => .error e
    | .ok p => upsertSeq lib acc p.1 rs

def newVersionCount (lib : MarkdownLib) (acc : String) :
    DBState → List AdminDraftUpsertRequest → Nat
  | _, [] => 0
  | st, r :: rs =>
    match AdminDraftUpsert lib st acc r with
    | .error _ => 0
    | .ok p =>
        (if p.1.versions.length == st.versions.length then 0 else 1) +
          newVersionCount lib acc p.1 rs

def seqOut (r : Except String DBState) : DBState := r.toOption.getD emptyState

def r2a : AdminDraftUpsertRequest :=
  { Slug := "fox", Title := "Fox", Markdown := "One." }

def r2b : AdminDraftUpsertRequest :=
  { Slug := "fox", Title := "Fox", Markdown := "Two." }

def w2reqs : List AdminDraftUpsertRequest := [r2a, r2b, r2a]

def w2story : StoryRow :=
  { id := 1, accountId := "acc", slug := "fox", title := "Fox",
    author := none, language := "en-GB", source := [], rights := [],
    draftVersionId := none, publishedVersionId := none,
    isPublished := false }

def w2state : DBState :=
  { stories := [w2story], versions := [], sections := [], segments := [],
    contributors := [], storyContributors := [], nextId := 2 }

def isH1 (s : Segment) : Bool :=
  match s.Locator with
  | .heading 1 _ => true
  | _ => false

def isH2 (s : Segment) : Bool :=
  match s.Locator with
  | .heading 2 _ => true
  | _ => false

/-- The title the claim prescribes for the chapter started by the
0-based i-th level-2 heading segment: the heading's text, or Chapter
(i+1) when that text is blank. -/
def chapterTitle (i : Nat) (seg : Segment) : String :=
  let t0 := headingTextOf seg.Markdown
  if goTrim t0 == "" then "Chapter " ++ toString (i + 1) else t0

/-- The 0-based index of the last level-2 heading segment of `hs` whose
ordinal is at most `o` (the chapter that most recently started at or
before ordinal `o`). -/
def lastH2IdxBefore (hs : List Segment) (o : Nat) : Option Nat :=
  ((hs.enum).filter (fun p => decide (p.2.Ordinal ≤ o))).getLast?.map (·.1)

/-- The section ids assigned to the segments, in order: the pure trace
of the section-assignment loop. -/
def assignList (noCh : Bool) (m : List (Nat × Nat)) :
    Option Nat → List Segment → List (Option Nat)
  | _, [] => []
  | cur, seg :: rest =>
      let pair := assignStep noCh m cur seg
      pair.1 :: assignList noCh m pair.2 rest

def secShape (r : SectionRow) : Nat × String × Option String × Nat :=
  (r.versionId, r.kind, r.title, r.ordinal)

def lastIdxFrom (c : Nat) (H : List Segment) (o : Nat) : Option Nat :=
  ((List.enumFrom c H).filter
    (fun p => decide (p.2.Ordinal ≤ o))).getLast?.map (·.1)

def st2of (st1 : DBState) (sid : Nat) (ing : Output) : DBState :=
  { st1 with
    versions := st1.versions ++
      [{ id := st1.nextId, storyId := sid,
         version := maxVersion st1 sid + 1,
         frontmatter := ing.Frontmatter, markdown := ing.Markdown,
         renderedHtml := ing.RenderedHTML,
         contentHash := ing.ContentHash }],
    nextId := st1.nextId + 1 }

def w3req : AdminDraftUpsertRequest :=
  { Slug := "fox", Title := "Fox",
    Markdown := "# Doc\n\nIntro para.\n\n## Alpha\n\nOne.\n\n##\n\nTwo." }

/-! ## Theorems -/

lemma except_eq_ok_ingOut (r : Except String Output)
    (h : r.toOption.isSome) : r = .ok (ingOut r) := by
  cases r <;> simp [ingOut, Except.toOption] at *

/-- Graph of a successful `Ingest` (settings.go lines 170 to 314): the
body is the frontmatter-stripped text, hashed and segmented as such, and
the returned frontmatter merges the parsed block under the explicit
fields. -/
lemma ingest_ok_fields (lib : MarkdownLib) (inp : Input) (out : Output)
    (h : Ingest lib inp = .ok out) :
    ∃ fm body, splitFrontmatter lib inp.Markdown = (fm, body) ∧
      out.Markdown = body ∧
      out.ContentHash = contentHashOf body ∧
      lib.render body = .ok out.RenderedHTML ∧
      out.Segments = segmentsOf lib 1 0 0 (lib.parseBlocks body) ∧
      out.Frontmatter = fm.foldl
        (fun acc kv => if (fmGet acc kv.1).isSome then acc else acc ++ [kv])
        ([("title", .str out.Title), ("author", .str out.Author),
          ("language", .str out.Language)] ++
         out.Source.map (fun kv => ("sourceUrl", kv.2))) := by
  unfold Ingest at h
  by_cases h1 : (goTrim inp.Title == "") = true
  · simp only [h1, if_true] at h; cases h
  simp only [h1, if_false, Bool.false_eq_true] at h
  by_cases h2 : (goTrim inp.Slug == "") = true
  · simp only [h2, if_true] at h; cases h
  simp only [h2, if_false, Bool.false_eq_true] at h
  by_cases h3 : (!slugMatches (goTrim inp.Slug)) = true
  · simp only [h3, if_true] at h; cases h
  simp only [h3, if_false, Bool.false_eq_true] at h
  by_cases h4 : (goTrim inp.Markdown == "") = true
  · simp only [h4, if_true] at h; cases h
  simp only [h4, if_false, Bool.false_eq_true] at h
  obtain ⟨fm, body, heq⟩ : ∃ fm body,
      splitFrontmatter lib inp.Markdown = (fm, body) := ⟨_, _, rfl⟩
  simp only [heq] at h
  rcases hr : lib.render body with e | fullHTML
  · simp only [hr] at h; cases h
  · simp only [hr] at h
    cases h
    refine ⟨fm, body, heq, rfl, rfl, hr, rfl, ?_⟩
    by_cases hc : (goTrim (match fmGetStr fm "sourceUrl" with
      | some v => if (inp.SourceURL == "") = true then goTrim v
                  else inp.SourceURL
      | none => inp.SourceURL) != "") = true
    · simp only [hc, if_true]; simp
    · simp only [hc, if_false, Bool.false_eq_true]; simp

/-- `splitFrontmatter` on text whose opening delimiter never closes:
every exit path returns the empty map and the whole original text. -/
lemma splitFrontmatter_unclosed (lib : MarkdownLib) (md : String)
    (h : ∀ l ∈ (goSplitChar '\n' (trimLeftCutset fmCutset md)).drop 1,
          goTrim l ≠ "---") :
    splitFrontmatter lib md = ([], md) := by
  have hnone : ((goSplitChar '\n' (trimLeftCutset fmCutset md)).drop 1).findIdx?
      (fun l => goTrim l == "---") = none := by
    rw [List.findIdx?_eq_none_iff]
    intro x hx
    simpa using h x hx
  unfold splitFrontmatter
  dsimp only []
  split
  · rfl
  split
  · rfl
  simp only [hnone]

/-- C10: when the markdown begins with a frontmatter delimiter line that
no later line closes, the whole original text is the body: the returned
frontmatter carries only the explicit keys, the content hash and full
render and segmentation are computed over the original text, delimiter
included, and (second conjunct) prepending such an unclosed delimiter to
a body changes the content hash, hence the version identity. -/
theorem claim10_unclosed_frontmatter_is_body :
    (∀ (lib : MarkdownLib) (inp : Input) (out : Output),
      (goStartsWith (trimLeftCutset fmCutset inp.Markdown) "---\n" = true ∨
       goStartsWith (trimLeftCutset fmCutset inp.Markdown) "---\r\n" = true) →
      (∀ l ∈ (goSplitChar '\n' (trimLeftCutset fmCutset inp.Markdown)).drop 1,
        goTrim l ≠ "---") →
      Ingest lib inp = .ok out →
      out.Markdown = inp.Markdown ∧
      out.ContentHash = contentHashOf inp.Markdown ∧
      lib.render inp.Markdown = .ok out.RenderedHTML ∧
      out.Segments = segmentsOf lib 1 0 0 (lib.parseBlocks inp.Markdown) ∧
      (∀ kv ∈ out.Frontmatter,
        kv.1 = "title" ∨ kv.1 = "author" ∨ kv.1 = "language" ∨
        kv.1 = "sourceUrl")) ∧
    contentHashOf ("---\nOnce upon a time.") ≠
      contentHashOf "Once upon a time." := by
  constructor
  · intro lib inp out _ hunc hok
    obtain ⟨fm, body, heq, hmk, hch, hr, hsegs, hfm⟩ :=
      ingest_ok_fields lib inp out hok
    rw [splitFrontmatter_unclosed lib inp.Markdown hunc] at heq
    obtain ⟨hfm0, hbody⟩ : [] = fm ∧ inp.Markdown = body := by
      simpa [Prod.ext_iff] using heq
    subst hbody
    subst hfm0
    refine ⟨hmk, hch, hr, hsegs, ?_⟩
    intro kv hkv
    rw [hfm] at hkv
    simp only [List.foldl_nil] at hkv
    rcases List.mem_append.1 hkv with hin | hin
    · simp at hin
      rcases hin with h | h | h <;> simp [h]
    · rcases List.mem_map.1 hin with ⟨x, _, hx⟩
      subst hx
      simp
  · decide

/-- Witness for C10 at a concrete unclosed-frontmatter manuscript. -/
theorem claim10_witness :
    (Ingest modelLib w10inp).toOption.map
      (fun o => (o.Markdown, o.ContentHash)) =
    some (w10inp.Markdown, contentHashOf w10inp.Markdown) := by
  have hs : (Ingest modelLib w10inp).toOption.isSome := by decide
  have hok := except_eq_ok_ingOut _ hs
  have h := claim10_unclosed_frontmatter_is_body.1 modelLib w10inp
    (ingOut (Ingest modelLib w10inp)) (Or.inl (by decide)) (by decide) hok
  rw [hok]
  show some ((ingOut (Ingest modelLib w10inp)).Markdown,
      (ingOut (Ingest modelLib w10inp)).ContentHash) = _
  rw [h.1, h.2.1]

/-- Whenever the explicit title is blank after trimming, `Ingest` fails
with the missing-title error: the check at settings.go lines 175 to 177
runs before `splitFrontmatter` is ever called, so the frontmatter title
fallback at lines 191 to 193 is unreachable. -/
theorem ingest_blank_title_errors (lib : MarkdownLib) (inp : Input)
    (h : goTrim inp.Title = "") :
    Ingest lib inp = .error "title is required" := by
  simp [Ingest, h]

/-- C7: the claim states that an input with a blank explicit title but a
frontmatter-supplied title succeeds, resolving the title from the
frontmatter.  The code instead rejects the input before reading the
frontmatter: at the failing input, slug fox, title a single space, and a
markdown whose frontmatter block supplies title Foo (as the second
conjunct shows the YAML collaborator indeed yields), `Ingest` returns
the missing-title error, even though the fallback code for exactly this
situation exists at settings.go lines 191 to 193 under the comment
prefer explicit fields, fall back to frontmatter.  That fallback is dead
code, contradicted by its own intent, so the claim names a code bug. -/
theorem claim7_title_fallback_unreachable :
    Ingest modelLib
      { Slug := "fox", Title := " ",
        Markdown := "---\ntitle: Foo\n---\nBody." } =
      .error "title is required" ∧
    fmGetStr (modelLib.parseYaml "title: Foo") "title" = some "Foo" := by
  exact ⟨ingest_blank_title_errors modelLib _ (by rfl), rfl⟩

/-- C4: a publish call whose version id does not identify a version row
of the story resolved for the addressed account and slug returns an
error and leaves the whole state, in particular the addressed story's
published pointer, unchanged; the version is never reassigned. -/
theorem claim4_publish_isolation (st : DBState) (acc slug : String)
    (vid : Nat) (s : StoryRow)
    (hs : findStory st (goTrim acc) (goTrim slug) = some s)
    (hv : st.versions.find? (fun v => v.id == vid && v.storyId == s.id)
          = none) :
    (AdminPublish st acc slug vid).1 = st ∧
    (AdminPublish st acc slug vid).2.isSome := by
  unfold AdminPublish
  by_cases hb : (goTrim acc == "" || goTrim slug == "") = true
  · simp [hb]
  · simp [hb, hs, hv]

/-- Witness for C4: version 10 belongs to story A (id 1); publishing it
while addressing story B's slug errors and leaves the state intact. -/
theorem claim4_witness :
    (AdminPublish twoStoryState "acc" "b" 10).1 = twoStoryState ∧
    (AdminPublish twoStoryState "acc" "b" 10).2.isSome :=
  claim4_publish_isolation twoStoryState "acc" "b" 10 storyB (by rfl) (by rfl)

lemma fmGet_cons (kv : String × FmVal) (l : FmMap) (k : String) :
    fmGet (kv :: l) k = if kv.1 == k then some kv.2 else fmGet l k := by
  cases h : kv.1 == k <;> simp [fmGet, List.find?_cons, h]

lemma fmGet_append (l1 l2 : FmMap) (k : String) :
    fmGet (l1 ++ l2) k = optOr (fmGet l1 k) (fmGet l2 k) := by
  induction l1 with
  | nil => cases h : fmGet l2 k <;> rw [List.nil_append, h] <;> rfl
  | cons kv rest ih =>
      rw [List.cons_append, fmGet_cons, fmGet_cons]
      cases h : kv.1 == k <;> simp [h, ih, optOr]

/-- Lookup in the merged frontmatter map (settings.go lines 293 to 298):
the explicit map wins, then the parsed frontmatter block. -/
lemma fmGet_merge (fm fm0 : FmMap) (k : String) :
    fmGet (fm.foldl
      (fun acc kv => if (fmGet acc kv.1).isSome then acc else acc ++ [kv])
      fm0) k =
    optOr (fmGet fm0 k) (fmGet fm k) := by
  induction fm generalizing fm0 with
  | nil =>
      cases h : fmGet fm0 k <;> rw [List.foldl_nil, h] <;> rfl
  | cons kv rest ih =>
      rw [List.foldl_cons, ih, fmGet_cons]
      by_cases hp : (fmGet fm0 kv.1).isSome = true
      · simp only [hp, if_true]
        cases hk : kv.1 == k
        · simp [hk]
        · have hkk : kv.1 = k := by simpa using hk
          subst hkk
          rcases hv : fmGet fm0 kv.1 with _ | v
          · rw [hv] at hp; cases hp
          · simp [optOr]
      · simp only [hp, if_false, Bool.false_eq_true]
        rw [fmGet_append]
        cases hk : kv.1 == k
        · have h1 : fmGet [kv] k = none := by
            simp [fmGet, List.find?, hk]
          rw [h1]
          simp only [hk, if_false, Bool.false_eq_true]
          cases fmGet fm0 k <;> simp [optOr]
        · have hkk : kv.1 = k := by simpa using hk
          subst hkk
          have h1 : fmGet [kv] kv.1 = some kv.2 := by
            simp [fmGet, List.find?]
          rw [h1]
          rcases hv : fmGet fm0 kv.1 with _ | v
          · simp [optOr]
          · rw [hv] at hp; simp at hp

theorem claim9_amended (lib : MarkdownLib) (inp : Input) (out : Output)
    (h : Ingest lib inp = .ok out) :
    fmGet out.Frontmatter "title" = some (.str out.Title) ∧
    fmGet out.Frontmatter "author" = some (.str out.Author) ∧
    fmGet out.Frontmatter "language" = some (.str out.Language) ∧
    (∀ u, out.Source = [("url", u)] →
      fmGet out.Frontmatter "sourceUrl" = some u) ∧
    (out.Source = [] →
      fmGet out.Frontmatter "sourceUrl" =
        fmGet (splitFrontmatter lib inp.Markdown).1 "sourceUrl") ∧
    (∀ k, k ≠ "title" → k ≠ "author" → k ≠ "language" → k ≠ "sourceUrl" →
      fmGet out.Frontmatter k = fmGet (splitFrontmatter lib inp.Markdown).1 k) := by
  obtain ⟨fm, body, heq, _, _, _, _, hfm⟩ := ingest_ok_fields lib inp out h
  rw [heq]
  rw [hfm]
  refine ⟨?_, ?_, ?_, ?_, ?_, ?_⟩
  · rw [fmGet_merge]; rfl
  · rw [fmGet_merge]; rfl
  · rw [fmGet_merge]; rfl
  · intro u hsrc
    rw [fmGet_merge, hsrc]
    rfl
  · intro hsrc
    rw [fmGet_merge, hsrc]
    rfl
  · intro k h1 h2 h3 h4
    rw [fmGet_merge, fmGet_append]
    have e1 : ("title" == k) = false := by simpa using Ne.symm h1
    have e2 : ("author" == k) = false := by simpa using Ne.symm h2
    have e3 : ("language" == k) = false := by simpa using Ne.symm h3
    have hA : fmGet [("title", FmVal.str out.Title),
        ("author", FmVal.str out.Author),
        ("language", FmVal.str out.Language)] k = none := by
      rw [fmGet_cons, fmGet_cons, fmGet_cons]
      simp only [e1, e2, e3, if_false, Bool.false_eq_true]
      rfl
    have hB : fmGet (out.Source.map (fun kv => ("sourceUrl", kv.2))) k
        = none := by
      rw [fmGet, List.find?_eq_none.2]
      · rfl
      · intro x hx
        rcases List.mem_map.1 hx with ⟨y, _, hy⟩
        subst hy
        simpa using Ne.symm h4
    rw [hA, hB]
    rfl

theorem claim9_counterexample :
    (Ingest modelLib c9inp).toOption.map
      (fun o => (o.Frontmatter, fmGet o.Frontmatter "sourceUrl")) =
    some ([("title", .str "Fox"), ("author", .str ""),
           ("language", .str "en-GB")], none) := by rfl

theorem claim9_witness :
    fmGet (ingOut (Ingest modelLib w9inp)).Frontmatter "title" =
      some (.str (ingOut (Ingest modelLib w9inp)).Title) ∧
    fmGet (ingOut (Ingest modelLib w9inp)).Frontmatter "foo" =
      fmGet (splitFrontmatter modelLib w9inp.Markdown).1 "foo" ∧
    (ingOut (Ingest modelLib w9inp)).Title = "Fox" ∧
    fmGet (splitFrontmatter modelLib w9inp.Markdown).1 "foo" =
      some (.str "bar") ∧
    fmGet (ingOut (Ingest modelLib w9inp)).Frontmatter "sourceUrl" =
      some (.str "http://x") := by
  have hs : (Ingest modelLib w9inp).toOption.isSome := by decide
  have hok := except_eq_ok_ingOut _ hs
  have h := claim9_amended modelLib w9inp _ hok
  refine ⟨h.1, h.2.2.2.2.2 "foo" (by decide) (by decide) (by decide)
    (by decide), by rfl, by rfl, ?_⟩
  exact h.2.2.2.1 (.str "http://x") (by rfl)

lemma segmentsOf_ordinals (lib : MarkdownLib) (blocks : List Block) :
    ∀ ord par hid,
      segOrdinals (segmentsOf lib ord par hid blocks) =
        List.range' ord (segmentsOf lib ord par hid blocks).length := by
  induction blocks with
  | nil => intro ord par hid; simp [segmentsOf, segOrdinals]
  | cons b rest ih =>
      intro ord par hid
      rcases hk : b.kind with lvl | _ | t
      · simp only [segmentsOf, hk]
        show ord :: segOrdinals (segmentsOf lib (ord+1) par (hid+1) rest) =
          ord :: List.range' (ord+1)
            (segmentsOf lib (ord+1) par (hid+1) rest).length
        exact congrArg (List.cons ord) (ih (ord+1) par (hid+1))
      · simp only [segmentsOf, hk]
        show ord :: segOrdinals (segmentsOf lib (ord+1) (par+1) hid rest) =
          ord :: List.range' (ord+1)
            (segmentsOf lib (ord+1) (par+1) hid rest).length
        exact congrArg (List.cons ord) (ih (ord+1) (par+1) hid)
      · simp only [segmentsOf, hk]
        split
        · exact ih ord par hid
        · show ord :: segOrdinals (segmentsOf lib (ord+1) par hid rest) =
            ord :: List.range' (ord+1)
              (segmentsOf lib (ord+1) par hid rest).length
          exact congrArg (List.cons ord) (ih (ord+1) par hid)

lemma segmentsOf_headingLocs (lib : MarkdownLib) (blocks : List Block) :
    ∀ ord par hid,
      headingLocs (segmentsOf lib ord par hid blocks) =
        (List.enumFrom hid (headingLevels blocks)).map (fun p => (p.2, p.1)) := by
  induction blocks with
  | nil => intro ord par hid; simp [segmentsOf, headingLocs, headingLevels]
  | cons b rest ih =>
      intro ord par hid
      rcases hk : b.kind with lvl | _ | t
      · simp only [segmentsOf, hk]
        rw [show headingLevels (b :: rest) = lvl :: headingLevels rest by
          simp [headingLevels, List.filterMap, hk]]
        show (lvl, hid) :: headingLocs (segmentsOf lib (ord+1) par (hid+1) rest) =
          ((hid, lvl) :: List.enumFrom (hid+1) (headingLevels rest)).map
            (fun p => (p.2, p.1))
        simp only [List.map_cons]
        exact congrArg (List.cons (lvl, hid)) (ih (ord+1) par (hid+1))
      · simp only [segmentsOf, hk]
        rw [show headingLevels (b :: rest) = headingLevels rest by
          simp [headingLevels, List.filterMap, hk]]
        show headingLocs (segmentsOf lib (ord+1) (par+1) hid rest) = _
        exact ih (ord+1) (par+1) hid
      · simp only [segmentsOf, hk]
        rw [show headingLevels (b :: rest) = headingLevels rest by
          simp [headingLevels, List.filterMap, hk]]
        split
        · exact ih ord par hid
        · show headingLocs (segmentsOf lib (ord+1) par hid rest) = _
          exact ih (ord+1) par hid

lemma segmentsOf_paraLocs (lib : MarkdownLib) (blocks : List Block) :
    ∀ ord par hid,
      paraLocs (segmentsOf lib ord par hid blocks) =
        List.range' (par+1) (paraCount blocks) := by
  induction blocks with
  | nil => intro ord par hid; simp [segmentsOf, paraLocs, paraCount]
  | cons b rest ih =>
      intro ord par hid
      rcases hk : b.kind with lvl | _ | t
      · simp only [segmentsOf, hk]
        show paraLocs (segmentsOf lib (ord+1) par (hid+1) rest) =
          List.range' (par+1) (paraCount (b :: rest))
        rw [show paraCount (b :: rest) = paraCount rest by
          simp [paraCount, List.filter, hk]]
        exact ih (ord+1) par (hid+1)
      · simp only [segmentsOf, hk]
        show (par+1) :: paraLocs (segmentsOf lib (ord+1) (par+1) hid rest) =
          List.range' (par+1) (paraCount (b :: rest))
        rw [show paraCount (b :: rest) = paraCount rest + 1 by
          simp [paraCount, List.filter, hk]]
        rw [show ∀ L, List.range' (par+1) (L+1) =
          (par+1) :: List.range' (par+2) L from fun L => rfl]
        exact congrArg (List.cons (par+1)) (ih (ord+1) (par+1) hid)
      · simp only [segmentsOf, hk]
        have hpc : paraCount (b :: rest) = paraCount rest := by
          simp [paraCount, List.filter, hk]
        split
        · rw [show paraLocs (segmentsOf lib ord par hid rest) =
            List.range' (par+1) (paraCount rest) from ih ord par hid, hpc]
        · show paraLocs (segmentsOf lib (ord+1) par hid rest) =
            List.range' (par+1) (paraCount (b :: rest))
          rw [hpc]
          exact ih (ord+1) par hid

lemma segmentsOf_blockLocs (lib : MarkdownLib) (blocks : List Block) :
    ∀ ord par hid,
      blockLocs (segmentsOf lib ord par hid blocks) =
        keptOtherKinds blocks := by
  induction blocks with
  | nil => intro ord par hid; simp [segmentsOf, blockLocs, keptOtherKinds]
  | cons b rest ih =>
      intro ord par hid
      rcases hk : b.kind with lvl | _ | t
      · simp only [segmentsOf, hk]
        show blockLocs (segmentsOf lib (ord+1) par (hid+1) rest) = _
        rw [show keptOtherKinds (b :: rest) = keptOtherKinds rest by
          simp [keptOtherKinds, List.filterMap, hk]]
        exact ih (ord+1) par (hid+1)
      · simp only [segmentsOf, hk]
        show blockLocs (segmentsOf lib (ord+1) (par+1) hid rest) = _
        rw [show keptOtherKinds (b :: rest) = keptOtherKinds rest by
          simp [keptOtherKinds, List.filterMap, hk]]
        exact ih (ord+1) (par+1) hid
      · simp only [segmentsOf, hk]
        split
        next hblank =>
          rw [show keptOtherKinds (b :: rest) = keptOtherKinds rest by
            simp [keptOtherKinds, List.filterMap, hk, hblank]]
          exact ih ord par hid
        next hblank =>
          show t :: blockLocs (segmentsOf lib (ord+1) par hid rest) = _
          rw [show keptOtherKinds (b :: rest) = t :: keptOtherKinds rest by
            simp [keptOtherKinds, List.filterMap, hk, hblank]]
          exact congrArg (List.cons t) (ih (ord+1) par hid)

lemma segmentsOf_length (lib : MarkdownLib) (blocks : List Block) :
    ∀ ord par hid,
      (segmentsOf lib ord par hid blocks).length =
        (headingLevels blocks).length + paraCount blocks +
          (keptOtherKinds blocks).length := by
  induction blocks with
  | nil => intro ord par hid; simp [segmentsOf, headingLevels, paraCount,
      keptOtherKinds]
  | cons b rest ih =>
      intro ord par hid
      rcases hk : b.kind with lvl | _ | t
      · simp only [segmentsOf, hk]
        show (segmentsOf lib (ord+1) par (hid+1) rest).length + 1 = _
        rw [show headingLevels (b :: rest) = lvl :: headingLevels rest by
            simp [headingLevels, List.filterMap, hk],
          show paraCount (b :: rest) = paraCount rest by
            simp [paraCount, List.filter, hk],
          show keptOtherKinds (b :: rest) = keptOtherKinds rest by
            simp [keptOtherKinds, List.filterMap, hk]]
        rw [ih (ord+1) par (hid+1)]
        simp
        omega
      · simp only [segmentsOf, hk]
        show (segmentsOf lib (ord+1) (par+1) hid rest).length + 1 = _
        rw [show headingLevels (b :: rest) = headingLevels rest by
            simp [headingLevels, List.filterMap, hk],
          show paraCount (b :: rest) = paraCount rest + 1 by
            simp [paraCount, List.filter, hk],
          show keptOtherKinds (b :: rest) = keptOtherKinds rest by
            simp [keptOtherKinds, List.filterMap, hk]]
        rw [ih (ord+1) (par+1) hid]
        omega
      · simp only [segmentsOf, hk]
        split
        next hblank =>
          rw [show headingLevels (b :: rest) = headingLevels rest by
              simp [headingLevels, List.filterMap, hk],
            show paraCount (b :: rest) = paraCount rest by
              simp [paraCount, List.filter, hk],
            show keptOtherKinds (b :: rest) = keptOtherKinds rest by
              simp [keptOtherKinds, List.filterMap, hk, hblank]]
          exact ih ord par hid
        next hblank =>
          show (segmentsOf lib (ord+1) par hid rest).length + 1 = _
          rw [show headingLevels (b :: rest) = headingLevels rest by
              simp [headingLevels, List.filterMap, hk],
            show paraCount (b :: rest) = paraCount rest by
              simp [paraCount, List.filter, hk],
            show keptOtherKinds (b :: rest) = t :: keptOtherKinds rest by
              simp [keptOtherKinds, List.filterMap, hk, hblank]]
          rw [ih (ord+1) par hid]
          simp
          omega

theorem claim6_amended (lib : MarkdownLib) (inp : Input) (out : Output)
    (h : Ingest lib inp = .ok out) :
    segOrdinals out.Segments = List.range' 1 out.Segments.length ∧
    headingLocs out.Segments =
      (List.enumFrom 0 (headingLevels (lib.parseBlocks out.Markdown))).map
        (fun p => (p.2, p.1)) ∧
    paraLocs out.Segments =
      List.range' 1 (paraCount (lib.parseBlocks out.Markdown)) ∧
    blockLocs out.Segments = keptOtherKinds (lib.parseBlocks out.Markdown) ∧
    out.Segments.length =
      (headingLevels (lib.parseBlocks out.Markdown)).length +
        paraCount (lib.parseBlocks out.Markdown) +
        (keptOtherKinds (lib.parseBlocks out.Markdown)).length := by
  obtain ⟨fm, body, heq, hmk, _, _, hsegs, _⟩ := ingest_ok_fields lib inp out h
  subst hmk
  rw [hsegs]
  exact ⟨segmentsOf_ordinals lib _ 1 0 0,
    segmentsOf_headingLocs lib _ 1 0 0,
    segmentsOf_paraLocs lib _ 1 0 0,
    segmentsOf_blockLocs lib _ 1 0 0,
    segmentsOf_length lib _ 1 0 0⟩

theorem claim6_counterexample :
    parseBlocksModel "##" = [{ kind := .heading 2, src := "", txt := "" }] ∧
    textContent { kind := BlockKind.heading 2, src := "", txt := "" } = "" ∧
    (Ingest modelLib c6inp).toOption.map
      (fun o => o.Segments.map
        (fun s => (s.Ordinal, s.Locator, s.Markdown, s.WordCount))) =
    some [(1, .heading 2 0, "## ", 0)] :=
  ⟨rfl, rfl, rfl⟩

theorem claim6_witness :
    segOrdinals (ingOut (Ingest modelLib w6inp)).Segments =
      List.range' 1 (ingOut (Ingest modelLib w6inp)).Segments.length ∧
    headingLocs (ingOut (Ingest modelLib w6inp)).Segments =
      (List.enumFrom 0 (headingLevels
        (modelLib.parseBlocks (ingOut (Ingest modelLib w6inp)).Markdown))).map
        (fun p => (p.2, p.1)) ∧
    paraLocs (ingOut (Ingest modelLib w6inp)).Segments =
      List.range' 1 (paraCount
        (modelLib.parseBlocks (ingOut (Ingest modelLib w6inp)).Markdown)) ∧
    blockLocs (ingOut (Ingest modelLib w6inp)).Segments =
      keptOtherKinds
        (modelLib.parseBlocks (ingOut (Ingest modelLib w6inp)).Markdown) ∧
    (ingOut (Ingest modelLib w6inp)).Segments.length =
      (headingLevels (modelLib.parseBlocks
        (ingOut (Ingest modelLib w6inp)).Markdown)).length +
      paraCount (modelLib.parseBlocks
        (ingOut (Ingest modelLib w6inp)).Markdown) +
      (keptOtherKinds (modelLib.parseBlocks
        (ingOut (Ingest modelLib w6inp)).Markdown)).length :=
  claim6_amended modelLib w6inp (ingOut (Ingest modelLib w6inp))
    (except_eq_ok_ingOut _ (by decide))

lemma except_eq_ok_getD {α : Type} (r : Except String α) (d : α)
    (h : r.toOption.isSome) : r = .ok (r.toOption.getD d) := by
  cases r <;> simp [Except.toOption] at *

/-- Successful `AdminDraftUpsert` is one of the two paths after the
story upsert: hash hit or new content. -/

lemma upsert_ok_cases (lib : MarkdownLib) (st : DBState) (acc : String)
    (req : AdminDraftUpsertRequest) (st' : DBState)
    (resp : AdminDraftUpsertResponse)
    (h : AdminDraftUpsert lib st acc req = .ok (st', resp)) :
    ∃ ing, Ingest lib (mkUpsertInput req) = .ok ing ∧
      ((∃ v, findVersionByHash (upsertStory st (goTrim acc) ing).1
               (upsertStory st (goTrim acc) ing).2 ing.ContentHash = some v ∧
         st' = (draftHit (upsertStory st (goTrim acc) ing).1
               (upsertStory st (goTrim acc) ing).2 ing v).1 ∧
         resp = (draftHit (upsertStory st (goTrim acc) ing).1
               (upsertStory st (goTrim acc) ing).2 ing v).2) ∨
       (findVersionByHash (upsertStory st (goTrim acc) ing).1
           (upsertStory st (goTrim acc) ing).2 ing.ContentHash = none ∧
         st' = (draftMiss (upsertStory st (goTrim acc) ing).1
               (upsertStory st (goTrim acc) ing).2 ing).1 ∧
         resp = (draftMiss (upsertStory st (goTrim acc) ing).1
               (upsertStory st (goTrim acc) ing).2 ing).2)) := by
  unfold AdminDraftUpsert at h
  by_cases ha : (goTrim acc == "") = true
  · simp only [ha, if_true] at h; cases h
  simp only [ha, if_false, Bool.false_eq_true] at h
  rcases hi : Ingest lib (mkUpsertInput req) with e | ing
  · simp only [hi] at h; cases h
  simp only [hi] at h
  refine ⟨ing, rfl, ?_⟩
  rcases hv : findVersionByHash (upsertStory st (goTrim acc) ing).1
      (upsertStory st (goTrim acc) ing).2 ing.ContentHash with _ | v
  · simp only [hv] at h
    have hp2 := Except.ok.inj h
    have h1 : (draftMiss (upsertStory st (goTrim acc) ing).1
        (upsertStory st (goTrim acc) ing).2 ing).1 = st' :=
      congrArg Prod.fst hp2
    have h2 : (draftMiss (upsertStory st (goTrim acc) ing).1
        (upsertStory st (goTrim acc) ing).2 ing).2 = resp :=
      congrArg Prod.snd hp2
    exact Or.inr ⟨rfl, h1.symm, h2.symm⟩
  · simp only [hv] at h
    have hp2 := Except.ok.inj h
    have h1 : (draftHit (upsertStory st (goTrim acc) ing).1
        (upsertStory st (goTrim acc) ing).2 ing v).1 = st' :=
      congrArg Prod.fst hp2
    have h2 : (draftHit (upsertStory st (goTrim acc) ing).1
        (upsertStory st (goTrim acc) ing).2 ing v).2 = resp :=
      congrArg Prod.snd hp2
    exact Or.inl ⟨v, rfl, h1.symm, h2.symm⟩

lemma upsertStory_versions (st : DBState) (a : String) (ing : Output) :
    (upsertStory st a ing).1.versions = st.versions := by
  unfold upsertStory
  split <;> rfl

lemma upsertStory_sections (st : DBState) (a : String) (ing : Output) :
    (upsertStory st a ing).1.sections = st.sections := by
  unfold upsertStory
  split <;> rfl

lemma upsertStory_segments (st : DBState) (a : String) (ing : Output) :
    (upsertStory st a ing).1.segments = st.segments := by
  unfold upsertStory
  split <;> rfl

lemma setDraftPointer_versions (st : DBState) (sid vid : Nat) :
    (setDraftPointer st sid vid).versions = st.versions := rfl

lemma setDraftPointer_sections (st : DBState) (sid vid : Nat) :
    (setDraftPointer st sid vid).sections = st.sections := rfl

lemma setDraftPointer_segments (st : DBState) (sid vid : Nat) :
    (setDraftPointer st sid vid).segments = st.segments := rfl

lemma linkAuthor_versions (st : DBState) (sid : Nat) (ing : Output) :
    (linkAuthor st sid ing).versions = st.versions := by
  unfold linkAuthor upsertContributor
  split
  · split <;> dsimp only [] <;> split <;> rfl
  · rfl

lemma linkAuthor_sections (st : DBState) (sid : Nat) (ing : Output) :
    (linkAuthor st sid ing).sections = st.sections := by
  unfold linkAuthor upsertContributor
  split
  · split <;> dsimp only [] <;> split <;> rfl
  · rfl

lemma linkAuthor_segments (st : DBState) (sid : Nat) (ing : Output) :
    (linkAuthor st sid ing).segments = st.segments := by
  unfold linkAuthor upsertContributor
  split
  · split <;> dsimp only [] <;> split <;> rfl
  · rfl

lemma linkAuthor_stories (st : DBState) (sid : Nat) (ing : Output) :
    (linkAuthor st sid ing).stories = st.stories := by
  unfold linkAuthor upsertContributor
  split
  · split <;> dsimp only [] <;> split <;> rfl
  · rfl

/-- Everything `Ingest` derives from the body alone is determined by the
raw markdown field of the input: slug, title, author, language and the
rest never reach the renderer, hasher or segmenter. -/

lemma ingest_markdown_determines (lib : MarkdownLib) (a b : Input)
    (oa ob : Output) (hm : a.Markdown = b.Markdown)
    (ha : Ingest lib a = .ok oa) (hb : Ingest lib b = .ok ob) :
    oa.Markdown = ob.Markdown ∧ oa.Segments = ob.Segments ∧
    oa.RenderedHTML = ob.RenderedHTML ∧ oa.ContentHash = ob.ContentHash := by
  obtain ⟨fa, ba, heqa, hmka, hcha, hra, hsa, _⟩ := ingest_ok_fields lib a oa ha
  obtain ⟨fb, bb, heqb, hmkb, hchb, hrb, hsb, _⟩ := ingest_ok_fields lib b ob hb
  rw [hm, heqb] at heqa
  obtain ⟨hfe, hbe⟩ : fb = fa ∧ bb = ba := by simpa [Prod.ext_iff] using heqa
  subst hbe
  have hmm : oa.Markdown = ob.Markdown := by rw [hmka, hmkb]
  refine ⟨hmm, ?_, ?_, ?_⟩
  · rw [hsa, hsb]
  · rw [hra] at hrb
    exact Except.ok.inj hrb
  · rw [hcha, hchb]

lemma adminPreview_ok (lib : MarkdownLib) (md : String)
    (pr : AdminPreviewResponse) (h : AdminPreview lib md = .ok pr) :
    ∃ o, Ingest lib (previewInput md) = .ok o ∧
      pr.RenderedHTML = o.RenderedHTML ∧
      pr.Segments = o.Segments.map (fun s =>
        { Ordinal := s.Ordinal, Locator := s.Locator,
          RenderedHTML := s.RenderedHTML }) := by
  unfold AdminPreview at h
  rcases hi : Ingest lib (previewInput md) with e | o
  · simp only [hi] at h; cases h
  · simp only [hi] at h
    cases h
    exact ⟨o, rfl, rfl, rfl⟩

lemma insertSegmentRows_proj (vid : Nat) (noCh : Bool)
    (m : List (Nat × Nat)) :
    ∀ (segs : List Segment) (st : DBState) (cur : Option Nat),
      (insertSegmentRows vid noCh m st cur segs).segments.map segRowKey =
      st.segments.map segRowKey ++
        segs.map (fun s => (vid, s.Ordinal, s.Locator, s.RenderedHTML)) := by
  intro segs
  induction segs with
  | nil => intro st cur; simp [insertSegmentRows]
  | cons seg rest ih =>
      intro st cur
      unfold insertSegmentRows
      rw [ih]
      simp [segRowKey]

lemma insertChapterRows_segments (vid : Nat) :
    ∀ (chs : List Chapter) (st : DBState),
      (insertChapterRows vid st chs).1.segments = st.segments := by
  intro chs
  induction chs with
  | nil => intro st; rfl
  | cons c rest ih =>
      intro st
      unfold insertChapterRows
      rw [ih]

lemma insertSections_segments (st : DBState) (vid : Nat)
    (chs : List Chapter) :
    (insertSections st vid chs).1.segments = st.segments := by
  unfold insertSections
  split
  · rfl
  · exact insertChapterRows_segments vid chs st

/-- The new-content path appends exactly one segment row per normalized
segment, carrying the fresh version id and the segment's ordinal,
locator and rendered HTML. -/

lemma draftMiss_segments_proj (st1 : DBState) (sid : Nat) (ing : Output) :
    (draftMiss st1 sid ing).1.segments.map segRowKey =
    st1.segments.map segRowKey ++
      ing.Segments.map (fun s =>
        (st1.nextId, s.Ordinal, s.Locator, s.RenderedHTML)) := by
  unfold draftMiss insertSegments
  dsimp only []
  rw [linkAuthor_segments, setDraftPointer_segments, insertSegmentRows_proj,
    insertSections_segments]

theorem claim5_preview_matches_upsert (lib : MarkdownLib)
    (req : AdminDraftUpsertRequest) (pr : AdminPreviewResponse)
    (ing : Output)
    (hp : AdminPreview lib req.Markdown = .ok pr)
    (hi : Ingest lib (mkUpsertInput req) = .ok ing) :
    pr.Segments = ing.Segments.map (fun s =>
      { Ordinal := s.Ordinal, Locator := s.Locator,
        RenderedHTML := s.RenderedHTML }) ∧
    ∀ (st st' : DBState) (acc : String) (resp : AdminDraftUpsertResponse),
      AdminDraftUpsert lib st acc req = .ok (st', resp) →
      resp.SegmentsCount = pr.Segments.length ∧
      ((∀ v ∈ st.versions, v.contentHash ≠ ing.ContentHash) →
        st'.segments.map segRowKey = st.segments.map segRowKey ++
          pr.Segments.map (fun a =>
            (resp.StoryVersionID, a.Ordinal, a.Locator, a.RenderedHTML))) := by
  obtain ⟨o, ho, hrh, hsegs⟩ := adminPreview_ok lib req.Markdown pr hp
  have hdet := ingest_markdown_determines lib (previewInput req.Markdown)
    (mkUpsertInput req) o ing rfl ho hi
  have hc1 : pr.Segments = ing.Segments.map (fun s =>
      { Ordinal := s.Ordinal, Locator := s.Locator,
        RenderedHTML := s.RenderedHTML }) := by
    rw [hsegs, hdet.2.1]
  refine ⟨hc1, ?_⟩
  intro st st' acc resp hup
  obtain ⟨ing', hi', hcase⟩ := upsert_ok_cases lib st acc req st' resp hup
  have hee : ing' = ing := by
    rw [hi] at hi'
    exact (Except.ok.inj hi').symm
  subst hee
  constructor
  · rcases hcase with ⟨v, hv, hst', hresp⟩ | ⟨hv, hst', hresp⟩ <;>
    · rw [hresp, hc1, List.length_map]
      rfl
  · intro habsent
    rcases hcase with ⟨v, hv, hst', hresp⟩ | ⟨hv, hst', hresp⟩
    · exfalso
      unfold findVersionByHash at hv
      rw [upsertStory_versions] at hv
      have hmem := List.mem_of_find?_eq_some hv
      have hpred := List.find?_some hv
      have hch : v.contentHash = ing'.ContentHash := by
        simp only [Bool.and_eq_true, beq_iff_eq] at hpred
        exact hpred.2
      exact habsent v hmem hch
    · rw [hst', draftMiss_segments_proj, upsertStory_segments]
      rw [hc1, List.map_map, hresp]
      rfl

theorem claim5_witness :
    (prevOut (AdminPreview modelLib w5req.Markdown)).Segments =
      (ingOut (Ingest modelLib (mkUpsertInput w5req))).Segments.map (fun s =>
        { Ordinal := s.Ordinal, Locator := s.Locator,
          RenderedHTML := s.RenderedHTML }) ∧
    (updOut (AdminDraftUpsert modelLib emptyState "acc" w5req)).2.SegmentsCount
      = (prevOut (AdminPreview modelLib w5req.Markdown)).Segments.length ∧
    (updOut (AdminDraftUpsert modelLib emptyState "acc" w5req)).1.segments.map
        segRowKey =
      emptyState.segments.map segRowKey ++
        (prevOut (AdminPreview modelLib w5req.Markdown)).Segments.map (fun a =>
          ((updOut (AdminDraftUpsert modelLib emptyState "acc" w5req)).2.StoryVersionID,
           a.Ordinal, a.Locator, a.RenderedHTML)) := by
  have hpok : (AdminPreview modelLib w5req.Markdown).toOption.isSome := by
    decide
  have hp : AdminPreview modelLib w5req.Markdown =
      .ok (prevOut (AdminPreview modelLib w5req.Markdown)) :=
    except_eq_ok_getD _ exPreview hpok
  have hiok : (Ingest modelLib (mkUpsertInput w5req)).toOption.isSome := by
    decide
  have hi : Ingest modelLib (mkUpsertInput w5req) =
      .ok (ingOut (Ingest modelLib (mkUpsertInput w5req))) :=
    except_eq_ok_getD _ exOutput hiok
  have huok : (AdminDraftUpsert modelLib emptyState "acc" w5req).toOption.isSome := by
    decide
  have hu : AdminDraftUpsert modelLib emptyState "acc" w5req =
      .ok ((updOut (AdminDraftUpsert modelLib emptyState "acc" w5req)).1,
           (updOut (AdminDraftUpsert modelLib emptyState "acc" w5req)).2) :=
    except_eq_ok_getD _ (emptyState, exResp) huok
  have h := claim5_preview_matches_upsert modelLib w5req
    (prevOut (AdminPreview modelLib w5req.Markdown))
    (ingOut (Ingest modelLib (mkUpsertInput w5req))) hp hi
  have h2 := h.2 emptyState
    (updOut (AdminDraftUpsert modelLib emptyState "acc" w5req)).1 "acc"
    (updOut (AdminDraftUpsert modelLib emptyState "acc" w5req)).2 hu
  exact ⟨h.1, h2.1, h2.2 (fun v hv => (List.not_mem_nil v hv).elim)⟩

lemma upsertStory_found (st : DBState) (a : String) (ing : Output)
    (s : StoryRow) (hs : findStory st a ing.Slug = some s) :
    (upsertStory st a ing).2 = s.id ∧
    (upsertStory st a ing).1.stories = st.stories.map (fun t =>
      if t.id == s.id then
        { t with title := ing.Title, author := nullifBtrim ing.Author,
                 language := ing.Language, source := ing.Source,
                 rights := ing.Rights }
      else t) := by
  unfold upsertStory
  simp only [hs]
  exact ⟨trivial, trivial⟩

lemma setDraftPointer_sets (st : DBState) (sid vid : Nat) :
    ∀ t ∈ (setDraftPointer st sid vid).stories, t.id = sid →
      t.draftVersionId = some vid := by
  intro t ht hid
  unfold setDraftPointer at ht
  obtain ⟨t0, ht0, rfl⟩ := List.mem_map.1 ht
  by_cases h : (t0.id == sid) = true
  · simp [h]
  · simp only [h, if_false, Bool.false_eq_true] at hid ⊢
    exact absurd (by simpa using hid) (by simpa using h)

/-- C1: when the ingested content hash already names a version of the
addressed story, `AdminDraftUpsert` creates no version row and assigns
no number: the version table is untouched, the response returns the
existing version's id, number and stored rendered HTML together with
the fresh segment count, and every story row with the story's id has
its draft pointer aimed at the existing version. -/

theorem claim1_idempotent_hash_hit (lib : MarkdownLib) (st : DBState)
    (acc : String) (req : AdminDraftUpsertRequest) (st' : DBState)
    (resp : AdminDraftUpsertResponse) (ing : Output) (s : StoryRow)
    (v : VersionRow)
    (hi : Ingest lib (mkUpsertInput req) = .ok ing)
    (hs : findStory st (goTrim acc) ing.Slug = some s)
    (hv : findVersionByHash st s.id ing.ContentHash = some v)
    (hup : AdminDraftUpsert lib st acc req = .ok (st', resp)) :
    st'.versions = st.versions ∧
    resp.StoryVersionID = v.id ∧
    resp.Version = v.version ∧
    resp.RenderedHTML = v.renderedHtml ∧
    resp.SegmentsCount = ing.Segments.length ∧
    (∀ t ∈ st'.stories, t.id = s.id →
      t.draftVersionId = some v.id) := by
  obtain ⟨ing', hi', hcase⟩ := upsert_ok_cases lib st acc req st' resp hup
  have hee : ing' = ing := by
    rw [hi] at hi'
    exact (Except.ok.inj hi').symm
  subst hee
  obtain ⟨hsid, _⟩ := upsertStory_found st (goTrim acc) ing' s hs
  have hv1 : findVersionByHash (upsertStory st (goTrim acc) ing').1
      (upsertStory st (goTrim acc) ing').2 ing'.ContentHash = some v := by
    unfold findVersionByHash
    rw [upsertStory_versions, hsid]
    exact hv
  rcases hcase with ⟨v', hv', hst', hresp⟩ | ⟨hv', _, _⟩
  · have hvv : v' = v := by
      rw [hv1] at hv'
      have hij := Option.some.inj hv'
      exact hij.symm
    subst hvv
    refine ⟨?_, ?_, ?_, ?_, ?_, ?_⟩
    · rw [hst']
      show (linkAuthor _ _ _).versions = st.versions
      rw [linkAuthor_versions, setDraftPointer_versions,
        upsertStory_versions]
    · rw [hresp]; rfl
    · rw [hresp]; rfl
    · rw [hresp]; rfl
    · rw [hresp]; rfl
    · intro t ht hid
      rw [hst'] at ht
      show t.draftVersionId = some v'.id
      have ht2 : t ∈ (setDraftPointer (upsertStory st (goTrim acc) ing').1
          (upsertStory st (goTrim acc) ing').2 v'.id).stories := by
        rw [← linkAuthor_stories _ (upsertStory st (goTrim acc) ing').2 ing']
        exact ht
      exact setDraftPointer_sets _ _ _ t ht2 (by rw [hid, ← hsid])
  · rw [hv1] at hv'
    cases hv'

lemma insertChapterRows_stories (vid : Nat) :
    ∀ (chs : List Chapter) (st : DBState),
      (insertChapterRows vid st chs).1.stories = st.stories := by
  intro chs
  induction chs with
  | nil => intro st; rfl
  | cons c rest ih => intro st; unfold insertChapterRows; rw [ih]

lemma insertChapterRows_versions (vid : Nat) :
    ∀ (chs : List Chapter) (st : DBState),
      (insertChapterRows vid st chs).1.versions = st.versions := by
  intro chs
  induction chs with
  | nil => intro st; rfl
  | cons c rest ih => intro st; unfold insertChapterRows; rw [ih]

lemma insertSections_stories (st : DBState) (vid : Nat)
    (chs : List Chapter) :
    (insertSections st vid chs).1.stories = st.stories := by
  unfold insertSections
  split
  · rfl
  · exact insertChapterRows_stories vid chs st

lemma insertSections_versions (st : DBState) (vid : Nat)
    (chs : List Chapter) :
    (insertSections st vid chs).1.versions = st.versions := by
  unfold insertSections
  split
  · rfl
  · exact insertChapterRows_versions vid chs st

lemma insertSegmentRows_stories (vid : Nat) (noCh : Bool)
    (m : List (Nat × Nat)) :
    ∀ (segs : List Segment) (st : DBState) (cur : Option Nat),
      (insertSegmentRows vid noCh m st cur segs).stories = st.stories := by
  intro segs
  induction segs with
  | nil => intro st cur; rfl
  | cons seg rest ih => intro st cur; unfold insertSegmentRows; rw [ih]

lemma insertSegmentRows_versions (vid : Nat) (noCh : Bool)
    (m : List (Nat × Nat)) :
    ∀ (segs : List Segment) (st : DBState) (cur : Option Nat),
      (insertSegmentRows vid noCh m st cur segs).versions = st.versions := by
  intro segs
  induction segs with
  | nil => intro st cur; rfl
  | cons seg rest ih => intro st cur; unfold insertSegmentRows; rw [ih]

lemma draftHit_stories (st1 : DBState) (sid : Nat) (ing : Output)
    (v : VersionRow) :
    (draftHit st1 sid ing v).1.stories = st1.stories.map (fun t =>
      if t.id == sid then { t with draftVersionId := some v.id } else t) := by
  show (linkAuthor _ _ _).stories = _
  rw [linkAuthor_stories]
  rfl

lemma draftMiss_stories (st1 : DBState) (sid : Nat) (ing : Output) :
    (draftMiss st1 sid ing).1.stories = st1.stories.map (fun t =>
      if t.id == sid then { t with draftVersionId := some st1.nextId }
      else t) := by
  unfold draftMiss insertSegments
  dsimp only []
  rw [linkAuthor_stories]
  show (setDraftPointer _ _ _).stories = _
  unfold setDraftPointer
  dsimp only []
  rw [insertSegmentRows_stories, insertSections_stories]

lemma draftMiss_versions (st1 : DBState) (sid : Nat) (ing : Output) :
    (draftMiss st1 sid ing).1.versions = st1.versions ++
      [{ id := st1.nextId, storyId := sid,
         version := maxVersion st1 sid + 1,
         frontmatter := ing.Frontmatter, markdown := ing.Markdown,
         renderedHtml := ing.RenderedHTML,
         contentHash := ing.ContentHash }] := by
  unfold draftMiss insertSegments
  dsimp only []
  rw [linkAuthor_versions, setDraftPointer_versions,
    insertSegmentRows_versions, insertSections_versions]

/-- C8: a successful `AdminDraftUpsert` never touches the published
pointer: every story row keeps its id, published pointer, published
flag, account and slug (rows other than the addressed story are kept
verbatim), and the addressed story's draft pointer ends at the returned
version id. -/

theorem claim8_upsert_preserves_published (lib : MarkdownLib)
    (st : DBState) (acc : String) (req : AdminDraftUpsertRequest)
    (st' : DBState) (resp : AdminDraftUpsertResponse) (ing : Output)
    (s : StoryRow)
    (hi : Ingest lib (mkUpsertInput req) = .ok ing)
    (hs : findStory st (goTrim acc) ing.Slug = some s)
    (hup : AdminDraftUpsert lib st acc req = .ok (st', resp)) :
    List.Forall₂ (fun t t' => t'.id = t.id ∧
      t'.publishedVersionId = t.publishedVersionId ∧
      t'.isPublished = t.isPublished ∧
      t'.accountId = t.accountId ∧ t'.slug = t.slug ∧
      (t.id ≠ s.id → t' = t)) st.stories st'.stories ∧
    (∀ t ∈ st'.stories, t.id = s.id →
      t.draftVersionId = some resp.StoryVersionID) := by
  obtain ⟨ing', hi', hcase⟩ := upsert_ok_cases lib st acc req st' resp hup
  have hee : ing' = ing := by
    rw [hi] at hi'
    exact (Except.ok.inj hi').symm
  subst hee
  obtain ⟨hsid, hstories⟩ := upsertStory_found st (goTrim acc) ing' s hs
  have main : ∀ X : Nat,
      st'.stories = (upsertStory st (goTrim acc) ing').1.stories.map
        (fun t => if t.id == (upsertStory st (goTrim acc) ing').2 then
          { t with draftVersionId := some X } else t) →
      resp.StoryVersionID = X →
      List.Forall₂ (fun t t' => t'.id = t.id ∧
        t'.publishedVersionId = t.publishedVersionId ∧
        t'.isPublished = t.isPublished ∧
        t'.accountId = t.accountId ∧ t'.slug = t.slug ∧
        (t.id ≠ s.id → t' = t)) st.stories st'.stories ∧
      (∀ t ∈ st'.stories, t.id = s.id →
        t.draftVersionId = some resp.StoryVersionID) := by
    intro X hst' hrX
    rw [hst', hstories, hsid, List.map_map]
    constructor
    · rw [List.forall₂_map_right_iff, List.forall₂_same]
      intro t ht
      by_cases hid : (t.id == s.id) = true
      · have hid' : t.id = s.id := by simpa using hid
        simp [Function.comp, hid, hid']
      · have hid' : ¬ t.id = s.id := by simpa using hid
        simp [Function.comp, hid, hid']
    · intro t ht hid
      rw [hrX]
      obtain ⟨t0, ht0, rfl⟩ := List.mem_map.1 ht
      by_cases h0 : (t0.id == s.id) = true
      · simp [Function.comp, h0]
      · have h0' : ¬ t0.id = s.id := by simpa using h0
        simp only [Function.comp, h0, if_false, Bool.false_eq_true] at hid
        exact absurd hid h0'
  rcases hcase with ⟨v, hv, hst', hresp⟩ | ⟨hv, hst', hresp⟩
  · refine main v.id ?_ ?_
    · rw [hst', draftHit_stories]
    · rw [hresp]; rfl
  · refine main (upsertStory st (goTrim acc) ing').1.nextId ?_ ?_
    · rw [hst', draftMiss_stories]
    · rw [hresp]; rfl

theorem claim1_witness :
    (updOut (AdminDraftUpsert modelLib w1state "acc" w1req)).1.versions =
      w1state.versions ∧
    (updOut (AdminDraftUpsert modelLib w1state "acc" w1req)).2.StoryVersionID
      = w1version.id ∧
    (updOut (AdminDraftUpsert modelLib w1state "acc" w1req)).2.Version =
      w1version.version ∧
    (updOut (AdminDraftUpsert modelLib w1state "acc" w1req)).2.RenderedHTML =
      w1version.renderedHtml ∧
    (updOut (AdminDraftUpsert modelLib w1state "acc" w1req)).2.SegmentsCount
      = (ingOut (Ingest modelLib (mkUpsertInput w1req))).Segments.length ∧
    ((updOut (AdminDraftUpsert modelLib w1state "acc" w1req)).1.stories.all
      (fun t => !(t.id == w1story.id) ||
        (t.draftVersionId == some w1version.id))) = true := by
  have hiok : (Ingest modelLib (mkUpsertInput w1req)).toOption.isSome := by
    decide
  have hi : Ingest modelLib (mkUpsertInput w1req) =
      .ok (ingOut (Ingest modelLib (mkUpsertInput w1req))) :=
    except_eq_ok_getD _ exOutput hiok
  have huok : (AdminDraftUpsert modelLib w1state "acc" w1req).toOption.isSome
      := by decide
  have hu : AdminDraftUpsert modelLib w1state "acc" w1req =
      .ok ((updOut (AdminDraftUpsert modelLib w1state "acc" w1req)).1,
           (updOut (AdminDraftUpsert modelLib w1state "acc" w1req)).2) :=
    except_eq_ok_getD _ (emptyState, exResp) huok
  have h := claim1_idempotent_hash_hit modelLib w1state "acc" w1req _ _
    (ingOut (Ingest modelLib (mkUpsertInput w1req))) w1story w1version
    hi (by decide) (by decide) hu
  refine ⟨h.1, h.2.1, h.2.2.1, h.2.2.2.1, h.2.2.2.2.1, ?_⟩
  rw [List.all_eq_true]
  intro t ht
  by_cases hid : t.id = w1story.id
  · have hd := h.2.2.2.2.2 t ht hid
    simp [hd]
  · simp [hid]

theorem claim8_witness :
    List.Forall₂ (fun t t' => t'.id = t.id ∧
      t'.publishedVersionId = t.publishedVersionId ∧
      t'.isPublished = t.isPublished ∧
      t'.accountId = t.accountId ∧ t'.slug = t.slug ∧
      (t.id ≠ w1story.id → t' = t)) w1state.stories
      (updOut (AdminDraftUpsert modelLib w1state "acc" w8req)).1.stories ∧
    ((updOut (AdminDraftUpsert modelLib w1state "acc" w8req)).1.stories.all
      (fun t => !(t.id == w1story.id) ||
        (t.draftVersionId == some (updOut (AdminDraftUpsert modelLib w1state
          "acc" w8req)).2.StoryVersionID))) = true := by
  have hiok : (Ingest modelLib (mkUpsertInput w8req)).toOption.isSome := by
    decide
  have hi : Ingest modelLib (mkUpsertInput w8req) =
      .ok (ingOut (Ingest modelLib (mkUpsertInput w8req))) :=
    except_eq_ok_getD _ exOutput hiok
  have huok : (AdminDraftUpsert modelLib w1state "acc" w8req).toOption.isSome
      := by decide
  have hu : AdminDraftUpsert modelLib w1state "acc" w8req =
      .ok ((updOut (AdminDraftUpsert modelLib w1state "acc" w8req)).1,
           (updOut (AdminDraftUpsert modelLib w1state "acc" w8req)).2) :=
    except_eq_ok_getD _ (emptyState, exResp) huok
  have h := claim8_upsert_preserves_published modelLib w1state "acc" w8req
    _ _ (ingOut (Ingest modelLib (mkUpsertInput w8req))) w1story
    hi (by decide) hu
  refine ⟨h.1, ?_⟩
  rw [List.all_eq_true]
  intro t ht
  by_cases hid : t.id = w1story.id
  · have hd := h.2 t ht hid
    simp [hd]
  · simp [hid]

lemma range1_snoc : ∀ (s n : Nat),
    List.range' s (n + 1) = List.range' s n ++ [s + n] := by
  intro s n
  induction n generalizing s with
  | zero => simp
  | succ n ih =>
      rw [show List.range' s (n + 2) = s :: List.range' (s + 1) (n + 1)
        from rfl]
      rw [ih (s + 1)]
      rw [show List.range' s (n + 1) = s :: List.range' (s + 1) n from rfl]
      simp
      omega

lemma foldl_max_range : ∀ k : Nat,
    List.foldl max 0 (List.range' 1 k) = k := by
  intro k
  induction k with
  | zero => rfl
  | succ k ih =>
      rw [range1_snoc, List.foldl_append]
      simp [ih]
      omega

lemma maxVersion_eq (st : DBState) (sid k : Nat)
    (h : versionNumbers st sid = List.range' 1 k) :
    maxVersion st sid = k := by
  unfold maxVersion
  have : (st.versions.filter (fun v => v.storyId == sid)).foldl
      (fun m v => max m v.version) 0 =
      List.foldl max 0 (versionNumbers st sid) := by
    unfold versionNumbers
    rw [List.foldl_map]
  rw [this, h, foldl_max_range]

lemma versionNumbers_congr (st st' : DBState) (sid : Nat)
    (h : st'.versions = st.versions) :
    versionNumbers st' sid = versionNumbers st sid := by
  unfold versionNumbers
  rw [h]

lemma maxVersion_congr (st st' : DBState) (sid : Nat)
    (h : st'.versions = st.versions) :
    maxVersion st' sid = maxVersion st sid := by
  unfold maxVersion
  rw [h]

lemma draftHit_versions (st1 : DBState) (sid : Nat) (ing : Output)
    (v : VersionRow) :
    (draftHit st1 sid ing v).1.versions = st1.versions := by
  show (linkAuthor _ _ _).versions = _
  rw [linkAuthor_versions, setDraftPointer_versions]

/-- Appending one version row of the story extends its number list. -/

lemma versionNumbers_append_own (st st' : DBState) (sid : Nat)
    (row : VersionRow) (hrow : row.storyId = sid)
    (hst : st'.versions = st.versions ++ [row]) :
    versionNumbers st' sid = versionNumbers st sid ++ [row.version] := by
  unfold versionNumbers
  rw [hst]
  simp [List.filter_append, hrow]

lemma ingest_ok_slug (lib : MarkdownLib) (inp : Input) (out : Output)
    (h : Ingest lib inp = .ok out) : out.Slug = goTrim inp.Slug := by
  unfold Ingest at h
  by_cases h1 : (goTrim inp.Title == "") = true
  · simp only [h1, if_true] at h; cases h
  simp only [h1, if_false, Bool.false_eq_true] at h
  by_cases h2 : (goTrim inp.Slug == "") = true
  · simp only [h2, if_true] at h; cases h
  simp only [h2, if_false, Bool.false_eq_true] at h
  by_cases h3 : (!slugMatches (goTrim inp.Slug)) = true
  · simp only [h3, if_true] at h; cases h
  simp only [h3, if_false, Bool.false_eq_true] at h
  by_cases h4 : (goTrim inp.Markdown == "") = true
  · simp only [h4, if_true] at h; cases h
  simp only [h4, if_false, Bool.false_eq_true] at h
  obtain ⟨fm, body, heq⟩ : ∃ fm body,
      splitFrontmatter lib inp.Markdown = (fm, body) := ⟨_, _, rfl⟩
  simp only [heq] at h
  rcases hr : lib.render body with e | fullHTML
  · simp only [hr] at h; cases h
  · simp only [hr] at h
    cases h
    rfl

lemma find?_map_pres {α : Type} (f : α → α) (p : α → Bool)
    (hp : ∀ x, p (f x) = p x) (l : List α) :
    (l.map f).find? p = (l.find? p).map f := by
  induction l with
  | nil => rfl
  | cons x xs ih =>
      cases hpx : p x
      · rw [List.map_cons,
          List.find?_cons_of_neg _ (by simp [hp x, hpx]),
          List.find?_cons_of_neg _ (by simp [hpx]), ih]
      · rw [List.map_cons,
          List.find?_cons_of_pos _ (by simp [hp x, hpx]),
          List.find?_cons_of_pos _ hpx]
        rfl

lemma upsertStory_stories_cases (st : DBState) (a : String) (ing : Output) :
    (∃ f : StoryRow → StoryRow,
      (∀ t, (f t).id = t.id ∧ (f t).accountId = t.accountId ∧
        (f t).slug = t.slug) ∧
      (upsertStory st a ing).1.stories = st.stories.map f) ∨
    (∃ row, (upsertStory st a ing).1.stories = st.stories ++ [row]) := by
  unfold upsertStory
  rcases h : findStory st a ing.Slug with _ | s
  · exact Or.inr ⟨_, rfl⟩
  · refine Or.inl ⟨_, ?_, rfl⟩
    intro t
    by_cases ht : (t.id == s.id) = true <;> simp [ht]

lemma stories_update_pres (sid X : Nat) :
    ∀ t : StoryRow,
      ((fun t => if t.id == sid then
          { t with draftVersionId := some X } else t) t).id = t.id ∧
      ((fun t => if t.id == sid then
          { t with draftVersionId := some X } else t) t).accountId
        = t.accountId ∧
      ((fun t => if t.id == sid then
          { t with draftVersionId := some X } else t) t).slug = t.slug := by
  intro t
  by_cases ht : (t.id == sid) = true <;> simp [ht]

/-- A successful upsert keeps every pre-existing story findable by its
account and slug, with the same id. -/

lemma upsert_preserves_story (lib : MarkdownLib) (st : DBState)
    (acc : String) (req : AdminDraftUpsertRequest) (st' : DBState)
    (resp : AdminDraftUpsertResponse) (sl : String) (s : StoryRow)
    (hup : AdminDraftUpsert lib st acc req = .ok (st', resp))
    (hs : findStory st (goTrim acc) sl = some s) :
    ∃ s', findStory st' (goTrim acc) sl = some s' ∧ s'.id = s.id := by
  obtain ⟨ing, hi, hcase⟩ := upsert_ok_cases lib st acc req st' resp hup
  have hmid : ∃ s1, findStory (upsertStory st (goTrim acc) ing).1
      (goTrim acc) sl = some s1 ∧ s1.id = s.id := by
    rcases upsertStory_stories_cases st (goTrim acc) ing with
      ⟨f, hf, hst1⟩ | ⟨row, hst1⟩
    · refine ⟨f s, ?_, (hf s).1⟩
      unfold findStory at hs ⊢
      rw [hst1, find?_map_pres f _ (fun x => by
        rw [(hf x).2.1, (hf x).2.2]), hs]
      rfl
    · refine ⟨s, ?_, rfl⟩
      unfold findStory at hs ⊢
      rw [hst1, List.find?_append, hs]
      rfl
  obtain ⟨s1, hs1, hid1⟩ := hmid
  have hfin : ∀ (X : Nat),
      st'.stories = (upsertStory st (goTrim acc) ing).1.stories.map
        (fun t => if t.id == (upsertStory st (goTrim acc) ing).2 then
          { t with draftVersionId := some X } else t) →
      ∃ s', findStory st' (goTrim acc) sl = some s' ∧ s'.id = s.id := by
    intro X hstX
    refine ⟨(fun t => if t.id == (upsertStory st (goTrim acc) ing).2 then
      { t with draftVersionId := some X } else t) s1, ?_, ?_⟩
    · unfold findStory at hs1 ⊢
      rw [hstX, find?_map_pres _ _ (fun x => by
        rcases stories_update_pres (upsertStory st (goTrim acc) ing).2 X x
          with ⟨_, h2, h3⟩
        rw [h2, h3]), hs1]
      rfl
    · rcases stories_update_pres (upsertStory st (goTrim acc) ing).2 X s1
        with ⟨h1, _, _⟩
      rw [h1, hid1]
  rcases hcase with ⟨v, _, hst', _⟩ | ⟨_, hst', _⟩
  · exact hfin v.id (by rw [hst', draftHit_stories])
  · exact hfin (upsertStory st (goTrim acc) ing).1.nextId
      (by rw [hst', draftMiss_stories])

/-- The new-content step: no version of the story carries the hash, so
a row numbered max plus one is appended. -/

lemma upsert_new_content_step (lib : MarkdownLib) (st : DBState)
    (acc : String) (req : AdminDraftUpsertRequest) (st' : DBState)
    (resp : AdminDraftUpsertResponse) (ing : Output) (s : StoryRow)
    (hi : Ingest lib (mkUpsertInput req) = .ok ing)
    (hs : findStory st (goTrim acc) ing.Slug = some s)
    (hvnone : findVersionByHash st s.id ing.ContentHash = none)
    (hup : AdminDraftUpsert lib st acc req = .ok (st', resp)) :
    resp.Version = maxVersion st s.id + 1 ∧
    versionNumbers st' s.id =
      versionNumbers st s.id ++ [maxVersion st s.id + 1] ∧
    (versionNumbers st s.id = [] → resp.Version = 1) := by
  obtain ⟨ing', hi', hcase⟩ := upsert_ok_cases lib st acc req st' resp hup
  have hee : ing' = ing := by
    rw [hi] at hi'
    exact (Except.ok.inj hi').symm
  subst hee
  obtain ⟨hsid, _⟩ := upsertStory_found st (goTrim acc) ing' s hs
  have hv1 : findVersionByHash (upsertStory st (goTrim acc) ing').1
      (upsertStory st (goTrim acc) ing').2 ing'.ContentHash = none := by
    unfold findVersionByHash
    rw [upsertStory_versions, hsid]
    exact hvnone
  rcases hcase with ⟨v, hv, _, _⟩ | ⟨_, hst', hresp⟩
  · rw [hv1] at hv
    cases hv
  · have hmax : maxVersion (upsertStory st (goTrim acc) ing').1
        (upsertStory st (goTrim acc) ing').2 = maxVersion st s.id := by
      rw [hsid]
      exact maxVersion_congr st _ s.id (upsertStory_versions st _ ing')
    have hver : resp.Version = maxVersion st s.id + 1 := by
      rw [hresp]
      show maxVersion (upsertStory st (goTrim acc) ing').1
        (upsertStory st (goTrim acc) ing').2 + 1 = _
      rw [hmax]
    refine ⟨hver, ?_, ?_⟩
    · have hrow : st'.versions = st.versions ++
          [{ id := (upsertStory st (goTrim acc) ing').1.nextId,
             storyId := (upsertStory st (goTrim acc) ing').2,
             version := maxVersion (upsertStory st (goTrim acc) ing').1
               (upsertStory st (goTrim acc) ing').2 + 1,
             frontmatter := ing'.Frontmatter, markdown := ing'.Markdown,
             renderedHtml := ing'.RenderedHTML,
             contentHash := ing'.ContentHash }] := by
        rw [hst', draftMiss_versions, upsertStory_versions]
      have := versionNumbers_append_own st st' s.id _ (by simpa using hsid)
        hrow
      rw [this]
      show versionNumbers st s.id ++
        [maxVersion (upsertStory st (goTrim acc) ing').1
          (upsertStory st (goTrim acc) ing').2 + 1] = _
      rw [hmax]
    · intro hnil
      rw [hver, maxVersion_eq st s.id 0 (by simpa using hnil)]

/-- Sequential processing: starting from a story whose version numbers
are exactly 1..k, any successful run of draft upserts addressed to that
story leaves its numbers exactly 1..(k plus the number of upserts that
inserted a row); idempotent re-ingests insert nothing and consume no
number. -/

lemma upsert_seq_numbers (lib : MarkdownLib) (acc slug : String)
    (hnorm : goTrim slug = slug) :
    ∀ (reqs : List AdminDraftUpsertRequest) (st : DBState) (s : StoryRow)
      (k : Nat) (stN : DBState),
      (∀ r ∈ reqs, goTrim r.Slug = slug) →
      findStory st (goTrim acc) slug = some s →
      upsertSeq lib acc st reqs = .ok stN →
      versionNumbers st s.id = List.range' 1 k →
      versionNumbers stN s.id =
        List.range' 1 (k + newVersionCount lib acc st reqs) := by
  intro reqs
  induction reqs with
  | nil =>
      intro st s k stN _ _ hseq hdense
      have hst : st = stN := Except.ok.inj hseq
      subst hst
      show versionNumbers st s.id = List.range' 1 (k + 0)
      rw [Nat.add_zero]
      exact hdense
  | cons r rs ih =>
      intro st s k stN hslug hstory hseq hdense
      rcases hstep : AdminDraftUpsert lib st acc r with e | p
      · simp only [upsertSeq, hstep] at hseq
        cases hseq
      · simp only [upsertSeq, hstep] at hseq
        have hcount : newVersionCount lib acc st (r :: rs) =
            (if p.1.versions.length == st.versions.length then 0 else 1) +
              newVersionCount lib acc p.1 rs := by
          simp only [newVersionCount, hstep]
        have hup2 : AdminDraftUpsert lib st acc r = .ok (p.1, p.2) := by
          rw [hstep]
        obtain ⟨ing, hi, hcase⟩ := upsert_ok_cases lib st acc r p.1 p.2 hup2
        have hslugr : ing.Slug = slug := by
          have h1 := ingest_ok_slug lib (mkUpsertInput r) ing hi
          rw [show (mkUpsertInput r).Slug = goTrim r.Slug from rfl] at h1
          rw [hslug r (List.mem_cons_self r rs), hnorm] at h1
          exact h1
        have hstoryIng : findStory st (goTrim acc) ing.Slug = some s := by
          rw [hslugr]
          exact hstory
        obtain ⟨hsid, _⟩ := upsertStory_found st (goTrim acc) ing s hstoryIng
        obtain ⟨s2, hs2, hid2⟩ := upsert_preserves_story lib st acc r p.1
          p.2 slug s hup2 hstory
        have hslug2 : ∀ x ∈ rs, goTrim x.Slug = slug := by
          intro x hx
          exact hslug x (List.mem_cons_of_mem r hx)
        rcases hcase with ⟨v, hv, hst', _⟩ | ⟨hv, hst', hresp⟩
        · have hveq : p.1.versions = st.versions := by
            rw [hst', draftHit_versions, upsertStory_versions]
          have hlen : (p.1.versions.length == st.versions.length) = true := by
            simp [hveq]
          have hd2 : versionNumbers p.1 s2.id = List.range' 1 k := by
            rw [hid2, versionNumbers_congr st p.1 s.id hveq]
            exact hdense
          have hres := ih p.1 s2 k stN hslug2 hs2 hseq hd2
          rw [hid2] at hres
          rw [hcount, hlen]
          show versionNumbers stN s.id =
            List.range' 1 (k + (0 + newVersionCount lib acc p.1 rs))
          rw [Nat.zero_add]
          exact hres
        · have hv0 : findVersionByHash st s.id ing.ContentHash = none := by
            unfold findVersionByHash at hv ⊢
            rw [upsertStory_versions, hsid] at hv
            exact hv
          have hstepL := upsert_new_content_step lib st acc r p.1 p.2 ing s
            hi hstoryIng hv0 hup2
          have hd2 : versionNumbers p.1 s2.id = List.range' 1 (k + 1) := by
            rw [hid2, hstepL.2.1, hdense, maxVersion_eq st s.id k hdense,
              range1_snoc]
            rw [Nat.add_comm 1 k]
          have hrow : p.1.versions = st.versions ++
              [{ id := (upsertStory st (goTrim acc) ing).1.nextId,
                 storyId := (upsertStory st (goTrim acc) ing).2,
                 version := maxVersion (upsertStory st (goTrim acc) ing).1
                   (upsertStory st (goTrim acc) ing).2 + 1,
                 frontmatter := ing.Frontmatter, markdown := ing.Markdown,
                 renderedHtml := ing.RenderedHTML,
                 contentHash := ing.ContentHash }] := by
            rw [hst', draftMiss_versions, upsertStory_versions]
          have hlen : (p.1.versions.length == st.versions.length) = false := by
            have hl : p.1.versions.length = st.versions.length + 1 := by
              rw [hrow]
              simp
            rw [hl, beq_eq_false_iff_ne]
            omega
          have hres := ih p.1 s2 (k + 1) stN hslug2 hs2 hseq hd2
          rw [hid2] at hres
          rw [hcount, hlen]
          show versionNumbers stN s.id =
            List.range' 1 (k + (1 + newVersionCount lib acc p.1 rs))
          rw [show k + (1 + newVersionCount lib acc p.1 rs) =
            k + 1 + newVersionCount lib acc p.1 rs from by omega]
          exact hres

/-- The hash-hit path leaves the story's version numbers untouched. -/

lemma upsert_hit_no_number (lib : MarkdownLib) (st : DBState)
    (acc : String) (req : AdminDraftUpsertRequest) (st' : DBState)
    (resp : AdminDraftUpsertResponse) (ing : Output) (s : StoryRow)
    (v : VersionRow)
    (hi : Ingest lib (mkUpsertInput req) = .ok ing)
    (hs : findStory st (goTrim acc) ing.Slug = some s)
    (hv : findVersionByHash st s.id ing.ContentHash = some v)
    (hup : AdminDraftUpsert lib st acc req = .ok (st', resp)) :
    versionNumbers st' s.id = versionNumbers st s.id := by
  obtain ⟨ing', hi', hcase⟩ := upsert_ok_cases lib st acc req st' resp hup
  have hee : ing' = ing := by
    rw [hi] at hi'
    exact (Except.ok.inj hi').symm
  subst hee
  obtain ⟨hsid, _⟩ := upsertStory_found st (goTrim acc) ing' s hs
  have hv1 : findVersionByHash (upsertStory st (goTrim acc) ing').1
      (upsertStory st (goTrim acc) ing').2 ing'.ContentHash = some v := by
    unfold findVersionByHash
    rw [upsertStory_versions, hsid]
    exact hv
  rcases hcase with ⟨v', hv', hst', _⟩ | ⟨hv', _, _⟩
  · apply versionNumbers_congr
    rw [hst', draftHit_versions, upsertStory_versions]
  · rw [hv1] at hv'
    cases hv'

/-- C2: (1) a new-content upsert numbers its row max existing plus one,
which is 1 for a story without versions; (2) a hash-hit re-ingest leaves
the story's version numbers untouched; (3) sequentially, a story whose
numbers are exactly 1..k ends with numbers exactly 1..(k + number of
row-inserting steps), so N distinct-content ingests interleaved with
idempotent re-ingests yield exactly 1..N with no gaps and re-ingests
consume no number. -/

theorem claim2_monotonic_numbering :
    (∀ (lib : MarkdownLib) (st : DBState) (acc : String)
       (req : AdminDraftUpsertRequest) (st' : DBState)
       (resp : AdminDraftUpsertResponse) (ing : Output) (s : StoryRow),
      Ingest lib (mkUpsertInput req) = .ok ing →
      findStory st (goTrim acc) ing.Slug = some s →
      findVersionByHash st s.id ing.ContentHash = none →
      AdminDraftUpsert lib st acc req = .ok (st', resp) →
      resp.Version = maxVersion st s.id + 1 ∧
      versionNumbers st' s.id =
        versionNumbers st s.id ++ [maxVersion st s.id + 1] ∧
      (versionNumbers st s.id = [] → resp.Version = 1)) ∧
    (∀ (lib : MarkdownLib) (st : DBState) (acc : String)
       (req : AdminDraftUpsertRequest) (st' : DBState)
       (resp : AdminDraftUpsertResponse) (ing : Output) (s : StoryRow)
       (v : VersionRow),
      Ingest lib (mkUpsertInput req) = .ok ing →
      findStory st (goTrim acc) ing.Slug = some s →
      findVersionByHash st s.id ing.ContentHash = some v →
      AdminDraftUpsert lib st acc req = .ok (st', resp) →
      versionNumbers st' s.id = versionNumbers st s.id) ∧
    (∀ (lib : MarkdownLib) (acc slug : String), goTrim slug = slug →
      ∀ (reqs : List AdminDraftUpsertRequest) (st : DBState) (s : StoryRow)
        (k : Nat) (stN : DBState),
        (∀ r ∈ reqs, goTrim r.Slug = slug) →
        findStory st (goTrim acc) slug = some s →
        upsertSeq lib acc st reqs = .ok stN →
        versionNumbers st s.id = List.range' 1 k →
        versionNumbers stN s.id =
          List.range' 1 (k + newVersionCount lib acc st reqs)) := by
  exact ⟨upsert_new_content_step, upsert_hit_no_number, upsert_seq_numbers⟩

theorem claim2_witness :
    ((updOut (AdminDraftUpsert modelLib w2state "acc" r2a)).2.Version =
      maxVersion w2state w2story.id + 1 ∧
     versionNumbers (updOut (AdminDraftUpsert modelLib w2state "acc"
        r2a)).1 w2story.id =
      versionNumbers w2state w2story.id ++
        [maxVersion w2state w2story.id + 1] ∧
     (versionNumbers w2state w2story.id = [] →
      (updOut (AdminDraftUpsert modelLib w2state "acc" r2a)).2.Version = 1))
    ∧
    versionNumbers (seqOut (upsertSeq modelLib "acc" w2state w2reqs))
        w2story.id =
      List.range' 1 (0 + newVersionCount modelLib "acc" w2state w2reqs) := by
  constructor
  · have hiok : (Ingest modelLib (mkUpsertInput r2a)).toOption.isSome := by
      decide
    have hi : Ingest modelLib (mkUpsertInput r2a) =
        .ok (ingOut (Ingest modelLib (mkUpsertInput r2a))) :=
      except_eq_ok_getD _ exOutput hiok
    have huok :
        (AdminDraftUpsert modelLib w2state "acc" r2a).toOption.isSome := by
      decide
    have hu : AdminDraftUpsert modelLib w2state "acc" r2a =
        .ok ((updOut (AdminDraftUpsert modelLib w2state "acc" r2a)).1,
             (updOut (AdminDraftUpsert modelLib w2state "acc" r2a)).2) :=
      except_eq_ok_getD _ (emptyState, exResp) huok
    exact claim2_monotonic_numbering.1 modelLib w2state "acc" r2a _ _
      (ingOut (Ingest modelLib (mkUpsertInput r2a))) w2story
      hi (by decide) (by decide) hu
  · have hsok :
        (upsertSeq modelLib "acc" w2state w2reqs).toOption.isSome := by
      decide
    have hseq : upsertSeq modelLib "acc" w2state w2reqs =
        .ok (seqOut (upsertSeq modelLib "acc" w2state w2reqs)) :=
      except_eq_ok_getD _ emptyState hsok
    exact claim2_monotonic_numbering.2.2 modelLib "acc" "fox" (by decide)
      w2reqs w2state w2story 0 _ (by decide) (by decide) hseq (by decide)

lemma enumFrom_succ_map {α β : Type} (f : Nat × α → β) :
    ∀ (l : List α) (n : Nat),
      (List.enumFrom (n + 1) l).map f =
        (List.enumFrom n l).map (fun p => f (p.1 + 1, p.2)) := by
  intro l
  induction l with
  | nil => intro n; rfl
  | cons x xs ih =>
      intro n
      show f (n + 1, x) :: (List.enumFrom (n + 2) xs).map f = _
      rw [ih (n + 1)]
      rfl

lemma chaptersGo_eq (segs : List Segment) : ∀ c,
    chaptersGo c segs = (List.enumFrom c (segs.filter isH2)).map
      (fun p => { startSegOrdinal := p.2.Ordinal,
                  title := chapterTitle p.1 p.2,
                  sectionOrdinal := p.1 + 1 }) := by
  induction segs with
  | nil => intro c; rfl
  | cons seg rest ih =>
      intro c
      rcases hloc : seg.Locator with ⟨lh, li⟩ | n | k
      · match lh with
        | 0 =>
            rw [show chaptersGo c (seg :: rest) = chaptersGo c rest by
              simp [chaptersGo, hloc]]
            rw [show (seg :: rest).filter isH2 = rest.filter isH2 by
              simp [List.filter, isH2, hloc]]
            exact ih c
        | 1 =>
            rw [show chaptersGo c (seg :: rest) = chaptersGo c rest by
              simp [chaptersGo, hloc]]
            rw [show (seg :: rest).filter isH2 = rest.filter isH2 by
              simp [List.filter, isH2, hloc]]
            exact ih c
        | 2 =>
            rw [show (seg :: rest).filter isH2 = seg :: rest.filter isH2 by
              simp [List.filter, isH2, hloc]]
            rw [show chaptersGo c (seg :: rest) =
              { startSegOrdinal := seg.Ordinal,
                title := (let t0 := headingTextOf seg.Markdown
                  if goTrim t0 == "" then "Chapter " ++ toString (c + 1)
                  else t0),
                sectionOrdinal := c + 1 } :: chaptersGo (c + 1) rest by
              simp [chaptersGo, hloc]]
            rw [ih (c + 1)]
            rfl
        | Nat.succ (Nat.succ (Nat.succ m)) =>
            rw [show chaptersGo c (seg :: rest) = chaptersGo c rest by
              simp [chaptersGo, hloc]]
            rw [show (seg :: rest).filter isH2 = rest.filter isH2 by
              simp [List.filter, isH2, hloc]]
            exact ih c
      · rw [show chaptersGo c (seg :: rest) = chaptersGo c rest by
          simp [chaptersGo, hloc]]
        rw [show (seg :: rest).filter isH2 = rest.filter isH2 by
          simp [List.filter, isH2, hloc]]
        exact ih c
      · rw [show chaptersGo c (seg :: rest) = chaptersGo c rest by
          simp [chaptersGo, hloc]]
        rw [show (seg :: rest).filter isH2 = rest.filter isH2 by
          simp [List.filter, isH2, hloc]]
        exact ih c

lemma insertChapterRows_spec (vid : Nat) :
    ∀ (chs : List Chapter) (st : DBState),
      (insertChapterRows vid st chs).1.sections = st.sections ++
        (List.enumFrom 0 chs).map (fun p =>
          { id := st.nextId + p.1, versionId := vid, kind := "chapter",
            title := some p.2.title, ordinal := p.2.sectionOrdinal }) ∧
      (insertChapterRows vid st chs).2 = (List.enumFrom 0 chs).map
        (fun p => (p.2.startSegOrdinal, st.nextId + p.1)) ∧
      (insertChapterRows vid st chs).1.nextId = st.nextId + chs.length := by
  intro chs
  induction chs with
  | nil =>
      intro st
      refine ⟨?_, rfl, rfl⟩
      show st.sections = st.sections ++ []
      simp
  | cons c cs ih =>
      intro st
      obtain ⟨ihs, ihm, ihn⟩ := ih { st with
        sections := st.sections ++
          [{ id := st.nextId, versionId := vid, kind := "chapter",
             title := some c.title, ordinal := c.sectionOrdinal }],
        nextId := st.nextId + 1 }
      refine ⟨?_, ?_, ?_⟩
      · show (insertChapterRows vid _ cs).1.sections = _
        rw [ihs]
        show (st.sections ++ [_]) ++
            (List.enumFrom 0 cs).map _ = st.sections ++
              ((0, c) :: List.enumFrom 1 cs).map _
        rw [List.map_cons, List.append_assoc]
        rw [enumFrom_succ_map]
        simp [Nat.add_assoc, Nat.add_comm 1]
      · show (c.startSegOrdinal, st.nextId) ::
            (insertChapterRows vid _ cs).2 = _
        rw [ihm]
        show _ = ((0, c) :: List.enumFrom 1 cs).map _
        rw [List.map_cons, enumFrom_succ_map]
        simp [Nat.add_assoc, Nat.add_comm 1]
      · show (insertChapterRows vid _ cs).1.nextId = _
        rw [ihn]
        show st.nextId + 1 + cs.length = st.nextId + (cs.length + 1)
        omega

lemma insertSegmentRows_sections (vid : Nat) (noCh : Bool)
    (m : List (Nat × Nat)) :
    ∀ (segs : List Segment) (st : DBState) (cur : Option Nat),
      (insertSegmentRows vid noCh m st cur segs).sections = st.sections := by
  intro segs
  induction segs with
  | nil => intro st cur; rfl
  | cons seg rest ih => intro st cur; unfold insertSegmentRows; rw [ih]

lemma insertSegmentRows_sectionIds (vid : Nat) (noCh : Bool)
    (m : List (Nat × Nat)) :
    ∀ (segs : List Segment) (st : DBState) (cur : Option Nat),
      (insertSegmentRows vid noCh m st cur segs).segments.map (·.sectionId) =
        st.segments.map (·.sectionId) ++ assignList noCh m cur segs := by
  intro segs
  induction segs with
  | nil => intro st cur; simp [insertSegmentRows, assignList]
  | cons seg rest ih =>
      intro st cur
      unfold insertSegmentRows assignList
      rw [ih]
      simp

lemma assignList_noCh (m : List (Nat × Nat)) :
    ∀ (segs : List Segment) (cur : Option Nat),
      assignList true m cur segs =
        List.replicate segs.length (lookupStart m 1) := by
  intro segs
  induction segs with
  | nil => intro cur; rfl
  | cons seg rest ih =>
      intro cur
      unfold assignList assignStep
      simp only [if_true]
      rw [ih]
      rfl

lemma lastH2IdxBefore_eq (H : List Segment) (o : Nat) :
    lastH2IdxBefore H o = lastIdxFrom 0 H o := rfl

lemma filter_enumFrom_nil (o : Nat) :
    ∀ (H : List Segment) (c : Nat), (∀ s ∈ H, o < s.Ordinal) →
      (List.enumFrom c H).filter (fun p => decide (p.2.Ordinal ≤ o)) = [] := by
  intro H
  induction H with
  | nil => intro c _; rfl
  | cons x xs ih =>
      intro c h
      show ((c, x) :: List.enumFrom (c + 1) xs).filter _ = []
      rw [List.filter_cons]
      have hx : decide (x.Ordinal ≤ o) = false := by
        simp
        exact h x (List.mem_cons_self x xs)
      rw [hx]
      simp only [Bool.false_eq_true, if_false]
      exact ih (c + 1) (fun s hs => h s (List.mem_cons_of_mem x hs))

lemma lastIdxFrom_none (o : Nat) (H : List Segment) (c : Nat)
    (h : ∀ s ∈ H, o < s.Ordinal) : lastIdxFrom c H o = none := by
  unfold lastIdxFrom
  rw [filter_enumFrom_nil o H c h]
  rfl

lemma lastIdxFrom_split (o : Nat) (x : Segment) (hx : x.Ordinal ≤ o) :
    ∀ (A : List Segment) (B : List Segment) (c : Nat),
      (∀ s ∈ B, o < s.Ordinal) →
      lastIdxFrom c (A ++ x :: B) o = some (c + A.length) := by
  intro A
  induction A with
  | nil =>
      intro B c hB
      unfold lastIdxFrom
      show (((c, x) :: List.enumFrom (c + 1) B).filter _).getLast?.map _ = _
      rw [List.filter_cons]
      have hxd : decide (x.Ordinal ≤ o) = true := by simpa using hx
      rw [hxd]
      simp only [if_true]
      rw [filter_enumFrom_nil o B (c + 1) hB]
      rfl
  | cons a A' ih =>
      intro B c hB
      unfold lastIdxFrom
      show (((c, a) :: List.enumFrom (c + 1) (A' ++ x :: B)).filter
        _).getLast?.map _ = _
      rw [List.filter_cons]
      have ihv := ih B (c + 1) hB
      unfold lastIdxFrom at ihv
      cases had : decide (a.Ordinal ≤ o)
      · simp only [Bool.false_eq_true, if_false]
        rw [ihv]
        exact congrArg some (by simp only [List.length_cons]; omega)
      · simp only [if_true]
        rcases hL : (List.enumFrom (c + 1) (A' ++ x :: B)).filter
            (fun p => decide (p.2.Ordinal ≤ o)) with _ | ⟨y, L'⟩
        · rw [hL] at ihv
          cases ihv
        · rw [hL] at ihv
          rw [hL, List.getLast?_cons_cons, ihv]
          exact congrArg some (by simp only [List.length_cons]; omega)

lemma lookup_enum_map (base o : Nat) (x : Segment) (hxo : x.Ordinal = o) :
    ∀ (P : List Segment) (F' : List Segment) (c : Nat),
      (∀ s ∈ P, s.Ordinal < o) →
      lookupStart ((List.enumFrom c (P ++ x :: F')).map
        (fun p => (p.2.Ordinal, base + p.1))) o =
      some (base + (c + P.length)) := by
  intro P
  induction P with
  | nil =>
      intro F' c _
      unfold lookupStart
      show ((((x.Ordinal, base + c) :: (List.enumFrom (c + 1) F').map _)).find?
        _).map _ = _
      rw [List.find?_cons_of_pos _ (by simpa using hxo)]
      rfl
  | cons a P' ih =>
      intro F' c hP
      unfold lookupStart
      show ((((a.Ordinal, base + c) ::
        (List.enumFrom (c + 1) (P' ++ x :: F')).map _)).find? _).map _ = _
      have ha : a.Ordinal < o := hP a (List.mem_cons_self a P')
      rw [List.find?_cons_of_neg _ (by simp only [beq_iff_eq]; omega)]
      have ihv := ih F' (c + 1) (fun s hs => hP s (List.mem_cons_of_mem a hs))
      unfold lookupStart at ihv
      rw [ihv]
      exact congrArg some (by simp only [List.length_cons]; omega)

/-- The section-assignment trace equals the claim's description: a
level-1 heading gets no section, and every other segment gets the
chapter that most recently started at or before it. -/
lemma assignList_spec (base : Nat) (H : List Segment) :
    ∀ (segs : List Segment) (P : List Segment) (b : Nat) (cur : Option Nat),
      H = P ++ segs.filter isH2 →
      segs.map (·.Ordinal) = List.range' (b + 1) segs.length →
      (∀ s ∈ P, s.Ordinal ≤ b) →
      cur = (match P.length with
        | 0 => none
        | Nat.succ t' => some (base + t')) →
      assignList false (H.enum.map (fun p => (p.2.Ordinal, base + p.1)))
          cur segs =
        segs.map (fun seg =>
          if isH1 seg = true then none
          else (lastH2IdxBefore H seg.Ordinal).map (fun j => base + j)) := by
  intro segs
  induction segs with
  | nil => intro P b cur _ _ _ _; rfl
  | cons seg rest ih =>
      intro P b cur hH hord hP hcur
      have hc : seg.Ordinal :: rest.map (·.Ordinal) =
          (b + 1) :: List.range' (b + 2) rest.length := by
        have h := hord
        rw [List.map_cons, List.length_cons, List.range'_succ] at h
        exact h
      have hso : seg.Ordinal = b + 1 := by injection hc
      have hord' : rest.map (·.Ordinal) = List.range' (b + 2) rest.length := by
        injection hc with h1 h2
      have hrest_big : ∀ s ∈ rest, b + 1 < s.Ordinal := by
        intro s hs
        have hm : s.Ordinal ∈ rest.map (·.Ordinal) :=
          List.mem_map_of_mem _ hs
        rw [hord'] at hm
        have := (List.mem_range'_1.mp hm).1
        omega
      have hfil_big : ∀ s ∈ rest.filter isH2, b + 1 < s.Ordinal :=
        fun s hs => hrest_big s (List.mem_of_mem_filter hs)
      have genCase : isH1 seg = false → isH2 seg = false →
          assignStep false (H.enum.map (fun p => (p.2.Ordinal, base + p.1)))
            cur seg = (cur, cur) →
          assignList false (H.enum.map (fun p => (p.2.Ordinal, base + p.1)))
              cur (seg :: rest) =
            (seg :: rest).map (fun sg =>
              if isH1 sg = true then none
              else (lastH2IdxBefore H sg.Ordinal).map (fun j => base + j)) := by
        intro h1f h2f hstep
        have hfil : (seg :: rest).filter isH2 = rest.filter isH2 := by
          simp [List.filter, h2f]
        have hH2 : H = P ++ rest.filter isH2 := by
          rw [hH, hfil]
        have hhead : (lastH2IdxBefore H seg.Ordinal).map
            (fun j => base + j) = cur := by
          rcases List.eq_nil_or_concat P with hPnil | ⟨Q, x, hPQ⟩
          · subst hPnil
            rw [hcur, lastH2IdxBefore_eq, hH2, hso, List.nil_append]
            rw [lastIdxFrom_none (b + 1) _ 0 hfil_big]
            rfl
          · rw [List.concat_eq_append] at hPQ
            subst hPQ
            have hHQ : H = Q ++ x :: rest.filter isH2 := by
              rw [List.append_assoc, List.singleton_append] at hH2
              exact hH2
            rw [hcur, lastH2IdxBefore_eq, hHQ, hso]
            rw [lastIdxFrom_split (b + 1) x
              (Nat.le_succ_of_le (hP x (by simp))) Q
              (rest.filter isH2) 0 hfil_big]
            rw [List.length_append]
            exact congrArg some (by
              show base + (0 + Q.length) = base + Q.length
              omega)
        show (assignStep false _ cur seg).1 ::
          assignList false _ (assignStep false _ cur seg).2 rest = _
        rw [hstep]
        rw [List.map_cons]
        rw [show (if isH1 seg = true then none
          else (lastH2IdxBefore H seg.Ordinal).map (fun j => base + j)) =
          cur by rw [h1f]; simp only [Bool.false_eq_true, if_false]
                 exact hhead]
        rw [ih P (b + 1) cur hH2 hord'
          (fun s hs => Nat.le_succ_of_le (hP s hs)) hcur]
      rcases hloc : seg.Locator with ⟨lh, li⟩ | n | k
      · match lh with
        | 0 =>
            exact genCase (by simp [isH1, hloc]) (by simp [isH2, hloc])
              (by simp [assignStep, hloc])
        | 1 =>
            have hfil : (seg :: rest).filter isH2 = rest.filter isH2 := by
              simp [List.filter, isH2, hloc]
            have hH2 : H = P ++ rest.filter isH2 := by
              rw [hH, hfil]
            have hstep : assignStep false
                (H.enum.map (fun p => (p.2.Ordinal, base + p.1))) cur seg =
                (none, cur) := by
              simp [assignStep, hloc]
            show (assignStep false _ cur seg).1 ::
              assignList false _ (assignStep false _ cur seg).2 rest = _
            rw [hstep]
            rw [List.map_cons]
            rw [show (if isH1 seg = true then none
              else (lastH2IdxBefore H seg.Ordinal).map (fun j => base + j)) =
              (none : Option Nat) by
                rw [show isH1 seg = true from by simp [isH1, hloc]]
                simp]
            rw [ih P (b + 1) cur hH2 hord'
              (fun s hs => Nat.le_succ_of_le (hP s hs)) hcur]
        | 2 =>
            have hfil2 : (seg :: rest).filter isH2 =
                seg :: rest.filter isH2 := by
              simp [List.filter, isH2, hloc]
            have hHc : H = P ++ seg :: rest.filter isH2 := by
              rw [hH, hfil2]
            have hlook : lookupStart
                (H.enum.map (fun p => (p.2.Ordinal, base + p.1)))
                seg.Ordinal = some (base + (0 + P.length)) := by
              rw [hso, hHc]
              exact lookup_enum_map base (b + 1) seg hso P
                (rest.filter isH2) 0
                (fun s hs => Nat.lt_succ_of_le (hP s hs))
            have hstep : assignStep false
                (H.enum.map (fun p => (p.2.Ordinal, base + p.1))) cur seg =
                (some (base + (0 + P.length)),
                 some (base + (0 + P.length))) := by
              simp only [assignStep, Bool.false_eq_true, if_false, hloc]
              rw [hlook]
            have hhead : (if isH1 seg = true then none
                else (lastH2IdxBefore H seg.Ordinal).map
                  (fun j => base + j)) =
                some (base + (0 + P.length)) := by
              rw [show isH1 seg = false from by simp [isH1, hloc]]
              simp only [Bool.false_eq_true, if_false]
              rw [lastH2IdxBefore_eq, hHc, hso]
              rw [lastIdxFrom_split (b + 1) seg (by omega) P
                (rest.filter isH2) 0 hfil_big]
              rfl
            have hH' : H = (P ++ [seg]) ++ rest.filter isH2 := by
              rw [List.append_assoc, List.singleton_append, hHc]
            have hP' : ∀ s ∈ P ++ [seg], s.Ordinal ≤ b + 1 := by
              intro s hs
              rcases List.mem_append.mp hs with h | h
              · exact Nat.le_succ_of_le (hP s h)
              · simp only [List.mem_singleton] at h
                subst h
                omega
            have hcur' : (some (base + (0 + P.length)) : Option Nat) =
                (match (P ++ [seg]).length with
                  | 0 => none
                  | Nat.succ t' => some (base + t')) := by
              rw [List.length_append]
              exact congrArg some (by omega)
            have tailEq := ih (P ++ [seg]) (b + 1)
              (some (base + (0 + P.length))) hH' hord' hP' hcur'
            show (assignStep false _ cur seg).1 ::
              assignList false _ (assignStep false _ cur seg).2 rest = _
            rw [hstep]
            rw [List.map_cons, hhead, tailEq]
        | Nat.succ (Nat.succ (Nat.succ m)) =>
            exact genCase (by simp [isH1, hloc]) (by simp [isH2, hloc])
              (by simp [assignStep, hloc])
      · exact genCase (by simp [isH1, hloc]) (by simp [isH2, hloc])
          (by simp [assignStep, hloc])
      · exact genCase (by simp [isH1, hloc]) (by simp [isH2, hloc])
          (by simp [assignStep, hloc])

lemma draftMiss_sections_eq (st1 : DBState) (sid : Nat) (ing : Output) :
    (draftMiss st1 sid ing).1.sections =
      (insertSections (st2of st1 sid ing) st1.nextId
        (chaptersOf ing.Segments)).1.sections := by
  unfold draftMiss insertSegments
  dsimp only []
  rw [linkAuthor_sections, setDraftPointer_sections,
    insertSegmentRows_sections]
  rfl

lemma draftMiss_sectionIds_eq (st1 : DBState) (sid : Nat) (ing : Output) :
    (draftMiss st1 sid ing).1.segments.map (·.sectionId) =
      st1.segments.map (·.sectionId) ++
        assignList (chaptersOf ing.Segments).isEmpty
          (insertSections (st2of st1 sid ing) st1.nextId
            (chaptersOf ing.Segments)).2 none ing.Segments := by
  unfold draftMiss insertSegments
  dsimp only []
  rw [linkAuthor_segments, setDraftPointer_segments,
    insertSegmentRows_sectionIds, insertSections_segments]
  rfl

lemma enumFrom_map_val {α β : Type} (g : α → β) :
    ∀ (l : List α) (n : Nat),
      List.enumFrom n (l.map g) =
        (List.enumFrom n l).map (fun p => (p.1, g p.2)) := by
  intro l
  induction l with
  | nil => intro n; rfl
  | cons x xs ih =>
      intro n
      show (n, g x) :: List.enumFrom (n + 1) (xs.map g) =
        (n, g x) :: (List.enumFrom (n + 1) xs).map _
      rw [ih (n + 1)]

lemma enumFrom_enumFrom {α : Type} :
    ∀ (l : List α) (n : Nat),
      List.enumFrom n (List.enumFrom n l) =
        (List.enumFrom n l).map (fun p => (p.1, p)) := by
  intro l
  induction l with
  | nil => intro n; rfl
  | cons x xs ih =>
      intro n
      show (n, (n, x)) :: List.enumFrom (n + 1) (List.enumFrom (n + 1) xs) =
        (n, (n, x)) :: (List.enumFrom (n + 1) xs).map _
      rw [ih (n + 1)]

lemma draftMiss_rows_nochapters (st1 : DBState) (sid : Nat) (ing : Output)
    (hc : ing.Segments.filter isH2 = []) :
    (draftMiss st1 sid ing).1.sections = st1.sections ++
      [{ id := st1.nextId + 1, versionId := st1.nextId, kind := "section",
         title := none, ordinal := 1 }] ∧
    (draftMiss st1 sid ing).1.segments.map (·.sectionId) =
      st1.segments.map (·.sectionId) ++
        List.replicate ing.Segments.length (some (st1.nextId + 1)) := by
  have hch : chaptersOf ing.Segments = [] := by
    show chaptersGo 0 ing.Segments = []
    rw [chaptersGo_eq, hc]
    rfl
  constructor
  · rw [draftMiss_sections_eq, hch]
    rfl
  · rw [draftMiss_sectionIds_eq, hch]
    rw [show (insertSections (st2of st1 sid ing) st1.nextId []).2 =
      [(1, st1.nextId + 1)] from rfl]
    rw [show ([] : List Chapter).isEmpty = true from rfl]
    rw [assignList_noCh]
    rfl

lemma draftMiss_rows_chapters (st1 : DBState) (sid : Nat) (ing : Output)
    (hne : ing.Segments.filter isH2 ≠ [])
    (hord : ing.Segments.map (·.Ordinal) =
      List.range' 1 ing.Segments.length) :
    (draftMiss st1 sid ing).1.sections = st1.sections ++
      ((ing.Segments.filter isH2).enum).map (fun p =>
        { id := st1.nextId + 1 + p.1, versionId := st1.nextId,
          kind := "chapter", title := some (chapterTitle p.1 p.2),
          ordinal := p.1 + 1 }) ∧
    (draftMiss st1 sid ing).1.segments.map (·.sectionId) =
      st1.segments.map (·.sectionId) ++
        ing.Segments.map (fun seg =>
          if isH1 seg = true then none
          else (lastH2IdxBefore (ing.Segments.filter isH2)
            seg.Ordinal).map (fun j => st1.nextId + 1 + j)) := by
  obtain ⟨x, xs, hc⟩ := List.exists_cons_of_ne_nil hne
  have hch : chaptersOf ing.Segments =
      (List.enumFrom 0 (ing.Segments.filter isH2)).map
        (fun p => { startSegOrdinal := p.2.Ordinal,
                    title := chapterTitle p.1 p.2,
                    sectionOrdinal := p.1 + 1 }) :=
    chaptersGo_eq ing.Segments 0
  have hemp : (chaptersOf ing.Segments).isEmpty = false := by
    rw [hch, hc]
    rfl
  have hins : insertSections (st2of st1 sid ing) st1.nextId
      (chaptersOf ing.Segments) =
      insertChapterRows st1.nextId (st2of st1 sid ing)
        (chaptersOf ing.Segments) := by
    unfold insertSections
    rw [hemp]
    simp
  have hsp := insertChapterRows_spec st1.nextId (chaptersOf ing.Segments)
    (st2of st1 sid ing)
  constructor
  · rw [draftMiss_sections_eq, hins, hsp.1, hch]
    rw [enumFrom_map_val, enumFrom_enumFrom, List.map_map, List.map_map]
    rfl
  · rw [draftMiss_sectionIds_eq, hemp, hins, hsp.2.1, hch]
    rw [enumFrom_map_val, enumFrom_enumFrom, List.map_map, List.map_map]
    exact congrArg (st1.segments.map (·.sectionId) ++ ·)
      (assignList_spec (st1.nextId + 1) (ing.Segments.filter isH2)
        ing.Segments [] 0 none rfl hord (by simp) rfl)

/-- C3: on the new-content path, chapters are inferred exactly as the
claim says.  When the normalized segments contain level-2 headings, the
section table gains one row of kind chapter per level-2 heading in
document order, with dense 1-based ordinals, titled from the heading
text with the Chapter N fallback when that text is blank; every new
segment row is owned by the chapter that most recently started at or
before its ordinal, while level-1 heading segments and segments before
the first chapter heading carry no section.  When no level-2 heading
exists, exactly one implicit row of kind section with ordinal 1 is
created, owning every new segment. -/
theorem claim3_chapter_inference (lib : MarkdownLib) (st : DBState)
    (acc : String) (req : AdminDraftUpsertRequest) (st' : DBState)
    (resp : AdminDraftUpsertResponse) (ing : Output)
    (hi : Ingest lib (mkUpsertInput req) = .ok ing)
    (hmiss : findVersionByHash (upsertStory st (goTrim acc) ing).1
      (upsertStory st (goTrim acc) ing).2 ing.ContentHash = none)
    (hu : AdminDraftUpsert lib st acc req = .ok (st', resp)) :
    (ing.Segments.filter isH2 = [] →
      st'.sections = st.sections ++
        [{ id := resp.StoryVersionID + 1, versionId := resp.StoryVersionID,
           kind := "section", title := none, ordinal := 1 }] ∧
      st'.segments.map (·.sectionId) =
        st.segments.map (·.sectionId) ++
          List.replicate ing.Segments.length
            (some (resp.StoryVersionID + 1))) ∧
    (ing.Segments.filter isH2 ≠ [] →
      st'.sections = st.sections ++
        ((ing.Segments.filter isH2).enum).map (fun p =>
          { id := resp.StoryVersionID + 1 + p.1,
            versionId := resp.StoryVersionID, kind := "chapter",
            title := some (chapterTitle p.1 p.2),
            ordinal := p.1 + 1 }) ∧
      st'.segments.map (·.sectionId) =
        st.segments.map (·.sectionId) ++
          ing.Segments.map (fun seg =>
            if isH1 seg = true then none
            else (lastH2IdxBefore (ing.Segments.filter isH2)
              seg.Ordinal).map (fun j => resp.StoryVersionID + 1 + j))) := by
  obtain ⟨ing0, hi0, hor⟩ := upsert_ok_cases lib st acc req st' resp hu
  have hing : ing0 = ing := Except.ok.inj (hi0.symm.trans hi)
  subst hing
  rcases hor with ⟨v, hv, _, _⟩ | ⟨_, hst', hresp⟩
  · rw [hmiss] at hv
    cases hv
  have hvid : resp.StoryVersionID =
      (upsertStory st (goTrim acc) ing0).1.nextId :=
    (congrArg AdminDraftUpsertResponse.StoryVersionID hresp).trans rfl
  have hord : ing0.Segments.map (·.Ordinal) =
      List.range' 1 ing0.Segments.length := by
    obtain ⟨fm, body, heq, hmk, _, _, hsegs, _⟩ :=
      ingest_ok_fields lib (mkUpsertInput req) ing0 hi
    rw [hsegs]
    exact segmentsOf_ordinals lib _ 1 0 0
  constructor
  · intro hc
    obtain ⟨h1, h2⟩ := draftMiss_rows_nochapters
      (upsertStory st (goTrim acc) ing0).1
      (upsertStory st (goTrim acc) ing0).2 ing0 hc
    constructor
    · rw [hst', hvid, h1, upsertStory_sections]
    · rw [hst', hvid, h2, upsertStory_segments]
  · intro hne
    obtain ⟨h1, h2⟩ := draftMiss_rows_chapters
      (upsertStory st (goTrim acc) ing0).1
      (upsertStory st (goTrim acc) ing0).2 ing0 hne hord
    constructor
    · rw [hst', hvid, h1, upsertStory_sections]
    · rw [hst', hvid, h2, upsertStory_segments]

theorem claim3_witness :
    (updOut (AdminDraftUpsert modelLib emptyState "acc" w3req)).1.sections =
      emptyState.sections ++
        (((ingOut (Ingest modelLib (mkUpsertInput w3req))).Segments.filter
            isH2).enum).map (fun p =>
          { id := (updOut (AdminDraftUpsert modelLib emptyState "acc"
                w3req)).2.StoryVersionID + 1 + p.1,
            versionId := (updOut (AdminDraftUpsert modelLib emptyState "acc"
                w3req)).2.StoryVersionID,
            kind := "chapter", title := some (chapterTitle p.1 p.2),
            ordinal := p.1 + 1 }) ∧
    (updOut (AdminDraftUpsert modelLib emptyState "acc"
        w3req)).1.segments.map (·.sectionId) =
      emptyState.segments.map (·.sectionId) ++
        (ingOut (Ingest modelLib (mkUpsertInput w3req))).Segments.map
          (fun seg =>
            if isH1 seg = true then none
            else (lastH2IdxBefore ((ingOut (Ingest modelLib
                (mkUpsertInput w3req))).Segments.filter isH2)
              seg.Ordinal).map (fun j =>
                (updOut (AdminDraftUpsert modelLib emptyState "acc"
                  w3req)).2.StoryVersionID + 1 + j)) := by
  have hiok : (Ingest modelLib (mkUpsertInput w3req)).toOption.isSome := by
    decide
  have hi : Ingest modelLib (mkUpsertInput w3req) =
      .ok (ingOut (Ingest modelLib (mkUpsertInput w3req))) :=
    except_eq_ok_getD _ exOutput hiok
  have huok : (AdminDraftUpsert modelLib emptyState "acc"
      w3req).toOption.isSome := by decide
  have hu : AdminDraftUpsert modelLib emptyState "acc" w3req =
      .ok ((updOut (AdminDraftUpsert modelLib emptyState "acc" w3req)).1,
           (updOut (AdminDraftUpsert modelLib emptyState "acc" w3req)).2) :=
    except_eq_ok_getD _ (emptyState, exResp) huok
  have h := claim3_chapter_inference modelLib emptyState "acc" w3req _ _
    (ingOut (Ingest modelLib (mkUpsertInput w3req))) hi (by decide) hu
  have h2 := h.2 (by decide)
  exact ⟨h2.1, h2.2⟩

end Panda